/-
  Verification of the proxy-fetch pipeline (fetch.js, jthatch/proxy-fetch).

  The program is shallowly embedded: JavaScript strings are modelled as lists of
  characters (`Str := List Char`, one element per UTF-16 code unit), and the
  dynamic values that flow through the pagination state (`this._urlPage`,
  `startPage`, `inc`) as the inductive `PVal` (an integer, a string, or NaN).
  JS numeric coercions are modelled on the integer fragment that the program's
  own URL templates exercise: `toNumberLC`/`parseIntLC` recognise optionally
  signed decimal integer strings and return `none` (NaN) otherwise; decimal
  fractions, exponents and hex forms of JS `ToNumber`/`parseInt` are outside the
  fragment used by any pagination template and are mapped to NaN.

  The authoritative source is the current revision of fetch.js (the copy
  carrying the `{page:A/B}` bounded form, the zero-padded `{page:01}` form, the
  POST support and the full adapter list); the second, older copy of fetch.js in
  the repository lacks these and is superseded wherever the two differ.

  External collaborators (the `request` HTTP client, `cheerio`'s selector
  engine, `JSON.parse`, `Buffer.from(_, 'base64')`, the filesystem) are
  modelled at their interface: transport outcomes, selected table rows, parsed
  JSON values and prior file contents are inputs to the embedded functions,
  while every piece of logic written in fetch.js itself is translated
  literally.
-/
import Mathlib

namespace ProxyFetch

/-- JS strings as lists of characters (code units). -/
abbrev Str : Type := List Char

/-! ## Character classes and elementary string operations -/

/-- Whitespace characters trimmed by JS `ToNumber` / skipped by `parseInt`
    (the ASCII fragment). -/
def isWsChar (c : Char) : Bool :=
  c = ' ' || c = '\t' || c = '\n' || c = '\r'

/-- ASCII decimal digit. -/
def isDigitChar (c : Char) : Bool :=
  decide (48 ≤ c.toNat ∧ c.toNat ≤ 57)

/-- Numeric value of a digit character. -/
def digitVal (c : Char) : Nat := c.toNat - 48

/-- Value of a string of decimal digits, most significant first. -/
def digitsVal (s : Str) : Nat :=
  s.foldl (fun a c => 10 * a + digitVal c) 0

/-- The decimal digit character for `d < 10` (`'9'` for larger inputs). -/
def digitChar : Nat → Char
  | 0 => '0' | 1 => '1' | 2 => '2' | 3 => '3' | 4 => '4'
  | 5 => '5' | 6 => '6' | 7 => '7' | 8 => '8' | _ => '9'

/-- Decimal digits of `n`, fuel-driven so that it reduces definitionally. -/
def natReprGo : Nat → Nat → Str
  | 0, _ => []
  | fuel + 1, n =>
    if n < 10 then [digitChar n]
    else natReprGo fuel (n / 10) ++ [digitChar (n % 10)]

/-- Decimal representation of a natural number (JS `String(n)` for `n ≥ 0`). -/
def natRepr (n : Nat) : Str := natReprGo (n + 1) n

/-- JS `String(n)` for an integer `n`. -/
def intStr (n : Int) : Str :=
  if n < 0 then '-' :: natRepr n.natAbs else natRepr n.toNat

/-- Drop leading and trailing whitespace. -/
def trimWs (s : Str) : Str :=
  ((s.dropWhile isWsChar).reverse.dropWhile isWsChar).reverse

/-- JS `ToNumber` on the integer fragment: trims whitespace, maps the empty
    string to `0`, reads an optionally signed run of decimal digits, and
    returns `none` (NaN) for everything else. -/
def toNumberLC (s : Str) : Option Int :=
  let t := trimWs s
  if t = [] then some 0
  else if t.head? = some '-' then
    (if (t.drop 1) ≠ [] ∧ (t.drop 1).all isDigitChar
     then some (-(digitsVal (t.drop 1) : Int)) else none)
  else if t.head? = some '+' then
    (if (t.drop 1) ≠ [] ∧ (t.drop 1).all isDigitChar
     then some ((digitsVal (t.drop 1) : Int)) else none)
  else if t.all isDigitChar then some ((digitsVal t : Int)) else none

/-- JS `parseInt` on the integer fragment: skips leading whitespace, reads an
    optional sign and the longest leading run of digits; `none` (NaN) when the
    run is empty. -/
def parseIntLC (s : Str) : Option Int :=
  let t := s.dropWhile isWsChar
  if t.head? = some '-' then
    (let ds := (t.drop 1).takeWhile isDigitChar
     if ds = [] then none else some (-(digitsVal ds : Int)))
  else
    (let t2 := if t.head? = some '+' then t.drop 1 else t
     let ds := t2.takeWhile isDigitChar
     if ds = [] then none else some ((digitsVal ds : Int)))

/-- JS `String.prototype.split` with a one-character separator. -/
def splitChar (c : Char) : Str → List Str
  | [] => [[]]
  | a :: t =>
    if a = c then [] :: splitChar c t
    else
      match splitChar c t with
      | [] => [[a]]
      | h :: r => (a :: h) :: r

/-- JS `Array.prototype.join` with a one-character separator. -/
def joinChar (c : Char) : List Str → Str
  | [] => []
  | [x] => x
  | x :: y :: t => x ++ c :: joinChar c (y :: t)

/-- JS `indexOf(c) > -1` for a one-character needle. -/
def containsChar (c : Char) (s : Str) : Bool := s.any (· = c)

/-- Does `pat` occur at the start of `s`? -/
def strHasPre : Str → Str → Bool
  | [], _ => true
  | _ :: _, [] => false
  | p :: ps, c :: cs => p = c && strHasPre ps cs

/-- JS `indexOf(pat) > -1` for a multi-character needle. -/
def containsSubstr (pat : Str) : Str → Bool
  | [] => strHasPre pat []
  | c :: t => strHasPre pat (c :: t) || containsSubstr pat t

/-- Split at the first occurrence of `pat`: returns the part before and the
    part after, or `none` when `pat` does not occur. -/
def splitFirst (pat : Str) : Str → Option (Str × Str)
  | [] => if pat = [] then some ([], []) else none
  | c :: t =>
    if strHasPre pat (c :: t) then some ([], (c :: t).drop pat.length)
    else
      match splitFirst pat t with
      | some (a, b) => some (c :: a, b)
      | none => none

/-- Split at the last `'\x7d'` in the string: `some (before, after)` with
    `s = before ++ '\x7d' :: after` and no `'\x7d'` in `after`. -/
def splitLastBrace : Str → Option (Str × Str)
  | [] => none
  | c :: t =>
    match splitLastBrace t with
    | some (m, r) => some (c :: m, r)
    | none => if c = '\x7d' then some ([], t) else none

/-- JS lexicographic string comparison `a > b` (code-unit order). -/
def lexGtStr : Str → Str → Bool
  | [], _ => false
  | _ :: _, [] => true
  | a :: as, b :: bs =>
    if a = b then lexGtStr as bs else decide (b.toNat < a.toNat)

/-! ## JS dynamic values in the pagination state -/

/-- The values JS stores in `this._urlPage` / `startPage` / `inc`: an integer
    number, a string, or NaN. -/
inductive PVal : Type where
  | num (n : Int)
  | str (s : Str)
  | nan
  deriving DecidableEq, Repr

/-- JS `String(v)`. -/
def pvToString : PVal → Str
  | .num n => intStr n
  | .str s => s
  | .nan => ['N', 'a', 'N']

/-- JS `v < k` for a number literal `k` (strings are coerced with `ToNumber`;
    comparisons with NaN are false). -/
def jsLtInt (p : PVal) (k : Int) : Bool :=
  match p with
  | .num n => decide (n < k)
  | .str s =>
    match toNumberLC s with
    | some n => decide (n < k)
    | none => false
  | .nan => false

/-- JS `v > m` for a string operand `m`: string-vs-string compares
    lexicographically, number-vs-string coerces the string with `ToNumber`,
    NaN compares false. -/
def jsGtStr (p : PVal) (m : Str) : Bool :=
  match p with
  | .str s => lexGtStr s m
  | .num n =>
    match toNumberLC m with
    | some b => decide (b < n)
    | none => false
  | .nan => false

/-- JS `parseInt(v)`: `parseInt` of the string form of `v`. -/
def jsParseInt (p : PVal) : Option Int :=
  match p with
  | .num n => some n
  | .str s => parseIntLC s
  | .nan => none

/-- JS loose equality `c == 0` between a one-character string and the number
    `0` (the character is coerced with `ToNumber`, so `'0'` and whitespace
    compare equal to `0`). -/
def jsEqNumZero (c : Char) : Bool := toNumberLC [c] = some 0

/-! ## Pagination template resolver (`Fetch.prototype.fetchPage`)

`fetchPage` begins by running `/\x7bpage(.*)\x7d/.exec(pageUrl)`: the match, if
any, starts at the first occurrence of `"\x7bpage"` and — because `.*` is
greedy — extends to the last `'\x7d'` of the string, so the captured group is
everything strictly between them (URL templates are single-line, so the
newline-exclusion of `.` never bites). `replace(/\x7bpage.*\x7d/, v)` replaces
exactly the same span. -/

/-- The literal characters of `"\x7bpage"`. -/
def pagePat : Str := ['\x7b', 'p', 'a', 'g', 'e']

/-- Model of `/\x7bpage(.*)\x7d/.exec(url)`: `some (pre, params, post)` means
    the match spans from the first `"\x7bpage"` to the last `'\x7d'`, with
    `url = pre ++ "\x7bpage" ++ params ++ "\x7d" ++ post`; `params` is the
    captured group `parts[1]`. -/
def regexExecPage (s : Str) : Option (Str × Str × Str) :=
  match splitFirst pagePat s with
  | none => none
  | some (pre, rest) =>
    match splitLastBrace rest with
    | none => none
    | some (params, post) => some (pre, params, post)

/-- What `fetchPage` derives from the captured `params` group: the block
    `if (params.indexOf(':') > -1) { params = params.split(':')[1]; ... }`
    together with the surrounding defaults `startPage = 1`, `inc = 1`,
    `leftPad = false`. `maxPage` is set only by the `{page:A/B}` branch. -/
structure ParamInfo : Type where
  startPage : PVal
  inc : PVal
  leftPad : Bool
  maxPage : Option Str
  deriving DecidableEq, Repr

/-- `startPage[0] == 0 && startPage.length > 1` (the `{page:A-B}` branch):
    the first character is loosely compared with the number `0`. -/
def leftPadLoose (s : Str) : Bool :=
  (match s.head? with
   | some c => jsEqNumZero c
   | none => false) && decide (1 < s.length)

/-- `params[0] == '0' && params.length > 1` (the `{page:N}` branch): the first
    character is compared with the one-character string `'0'`. -/
def leftPadStrict (s : Str) : Bool :=
  (match s.head? with
   | some c => decide (c = '0')
   | none => false) && decide (1 < s.length)

/-- Translation of the parameter-classification block of `fetchPage`. -/
def classifyParams (params : Str) : ParamInfo :=
  if containsChar ':' params then
    let p1 := (splitChar ':' params).getD 1 []
    if containsChar '-' p1 then
      -- `[startPage, inc] = params.split('-')`
      let ps := splitChar '-' p1
      let sp := ps.getD 0 []
      { startPage := .str sp, inc := .str (ps.getD 1 []),
        -- `if (startPage[0] == 0 && startPage.length > 1) leftPad = true`
        leftPad := leftPadLoose sp,
        maxPage := none }
    else if containsChar '/' p1 then
      -- `[startPage, maxPage] = params.split('/')`
      let ps := splitChar '/' p1
      { startPage := .str (ps.getD 0 []), inc := .num 1, leftPad := false,
        maxPage := some (ps.getD 1 []) }
    else
      -- `if (params[0] == '0' && params.length > 1) leftPad = true;`
      -- `startPage = parseInt(params)`
      { startPage := (match parseIntLC p1 with
                      | some n => .num n
                      | none => .nan),
        inc := .num 1,
        leftPad := leftPadStrict p1,
        maxPage := none }
  else
    { startPage := .num 1, inc := .num 1, leftPad := false, maxPage := none }

/-- `if (pageUrl.substr(0,5) === 'POST:') pageUrl = pageUrl.substr(5, ...)`. -/
def stripPostMark (u : Str) : Str :=
  if u.take 5 = ['P', 'O', 'S', 'T', ':'] then u.drop 5 else u

/-- The observable outcome of one `fetchPage()` call for a given template and
    incoming `this._urlPage`:
    * `reachedEnd` — the `{page:A/B}` bound tripped, so the synthetic result
      `{error: null, url: pageUrl, response: {}, body: ''}` is emitted and no
      transport call is made;
    * `url` — the `pageUrl` after placeholder substitution;
    * `requestUrl` — the URL handed to the transport (after the `POST:` mark
      is stripped);
    * `pageStr` — the string `String(startPage)` substituted for the
      placeholder (`none` when the template has no placeholder);
    * `singlePage` — the `ret.singlePage` flag of the emitted result (set
      exactly when the regex did not match);
    * `newUrlPage` — the value of `this._urlPage` after the call. -/
structure ResolveOut : Type where
  reachedEnd : Bool
  url : Str
  requestUrl : Str
  pageStr : Option Str
  singlePage : Bool
  newUrlPage : PVal
  deriving DecidableEq, Repr

/-- The body of `fetchPage` when the page regex matched, with the match split
    into `pre`/`params`/`post` as in `regexExecPage`. -/
def fetchPageCore (pre params post : Str) (urlPage0 : PVal) : ResolveOut :=
  let info := classifyParams params
  -- `if (this._urlPage > maxPage) reachedEnd = true` (inside the `/` branch)
  let reachedEnd := match info.maxPage with
    | some mp => jsGtStr urlPage0 mp
    | none => false
  -- `if (leftPad && startPage < 10) startPage = '0' + startPage`
  let sp1 := if info.leftPad && jsLtInt info.startPage 10
             then PVal.str ('0' :: pvToString info.startPage)
             else info.startPage
  -- `if (this._urlPage < 0) this._urlPage = startPage; else startPage = this._urlPage`
  let stVals := if jsLtInt urlPage0 0 then (sp1, sp1) else (urlPage0, urlPage0)
  let newPage0 := stVals.1
  let spSub := stVals.2
  -- `pageUrl = pageUrl.replace(/\x7bpage.*\x7d/, String(startPage))`
  let url1 := pre ++ pvToString spSub ++ post
  if reachedEnd then
    { reachedEnd := true, url := url1, requestUrl := url1,
      pageStr := some (pvToString spSub), singlePage := false,
      newUrlPage := newPage0 }
  else
    -- `startPage = parseInt(startPage) + parseInt(inc)`, re-pad, store
    let nextP := match jsParseInt spSub, jsParseInt info.inc with
      | some a, some b => PVal.num (a + b)
      | _, _ => PVal.nan
    let nextP2 := if info.leftPad && jsLtInt nextP 10
                  then PVal.str ('0' :: pvToString nextP)
                  else nextP
    { reachedEnd := false, url := url1, requestUrl := stripPostMark url1,
      pageStr := some (pvToString spSub), singlePage := false,
      newUrlPage := nextP2 }

/-- Translation of `Fetch.prototype.fetchPage` (minus the transport call) as a
    function of the current source's URL template and `this._urlPage`.

    When the regex does not match, the whole parsing block is skipped and the
    code below it computes `startPage = parseInt(1) + parseInt(1) = 2` and
    stores it in `this._urlPage`; `ret.singlePage = true` is set in the
    transport callback. -/
def fetchPage (tmpl : Str) (urlPage0 : PVal) : ResolveOut :=
  match regexExecPage tmpl with
  | none =>
    { reachedEnd := false, url := tmpl, requestUrl := stripPostMark tmpl,
      pageStr := none, singlePage := true, newUrlPage := .num 2 }
  | some (pre, params, post) => fetchPageCore pre params post urlPage0

/-! ## Per-source traces

In `main`, a successful fetch (status 200) of a paginated source that yields at
least one record triggers another `fetchPage()` on the same source, so — absent
zero-record or transport-error termination — the per-source behaviour is the
iteration of `fetchPage` from the initial sentinel `this._urlPage = -1`.  A
trace records each transport call made and the synthetic empty result (if any)
that ends a `{page:A/B}` source. -/

/-- One observable per-source event. -/
inductive SourceEvent : Type where
  | call (url : Str)
  | syntheticEnd (url : Str)
  deriving DecidableEq, Repr

/-- Iterate `fetchPage` from state `p`, assuming every transport call succeeds
    with at least one record; stops at the synthetic bound event. `fuel` bounds
    the number of steps. -/
def pageTraceGo (tmpl : Str) : Nat → PVal → List SourceEvent
  | 0, _ => []
  | fuel + 1, p =>
    let r := fetchPage tmpl p
    if r.reachedEnd then [SourceEvent.syntheticEnd r.url]
    else SourceEvent.call r.url :: pageTraceGo tmpl fuel r.newUrlPage

/-- The per-source trace from the initial sentinel `this._urlPage = -1`. -/
def pageTrace (tmpl : Str) (fuel : Nat) : List SourceEvent :=
  pageTraceGo tmpl fuel (PVal.num (-1))

/-- The successive substituted page strings of a paginated source (assuming
    every fetch finds records), from the initial sentinel. -/
def pageStrsGo (tmpl : Str) : Nat → PVal → List Str
  | 0, _ => []
  | fuel + 1, p =>
    let r := fetchPage tmpl p
    if r.reachedEnd then []
    else (r.pageStr.getD []) :: pageStrsGo tmpl fuel r.newUrlPage

/-- Substituted page strings from `this._urlPage = -1`. -/
def pageStrs (tmpl : Str) (fuel : Nat) : List Str :=
  pageStrsGo tmpl fuel (PVal.num (-1))

/-! ## Extraction adapters (`Fetch.prototype.extractProxies`)

`extractProxies` dispatches on `data.url.indexOf(...)` to one adapter per
source and reads the fetched document through cheerio selector queries.  The
cheerio engine and `JSON.parse` are external collaborators, so a fetched
document is modelled by what those collaborators hand the adapter: for
hidemyass the list of `#listable>tbody>tr` rows with the three queried
fragments of each row, for incloak the `(ip, port)` text pairs of its table
rows, and for nordvpn the outcome of `JSON.parse(body)` (`none` when the body
is not valid JSON and `JSON.parse` throws).  Everything the adapter itself
computes on those inputs is translated literally.  Adapter code that can throw
is modelled in `Except`: an `Except.error` marks a statement at which the JS
code raises a `TypeError`/`SyntaxError` that propagates out of
`extractProxies`. -/

/-- ASCII lower-casing (JS `toLowerCase` on the ASCII fragment). -/
def toLowerAscii (c : Char) : Char :=
  if 65 ≤ c.toNat ∧ c.toNat ≤ 90 then Char.ofNat (c.toNat + 32) else c

/-- Lower-case a string. -/
def toLowerStr (s : Str) : Str := s.map toLowerAscii

/-- Case-insensitive version of `strHasPre`. -/
def strHasPreCI : Str → Str → Bool
  | [], _ => true
  | _ :: _, [] => false
  | p :: ps, c :: cs => toLowerAscii p = toLowerAscii c && strHasPreCI ps cs

/-- Split at the first case-insensitive occurrence of `pat`. -/
def splitFirstCI (pat : Str) : Str → Option (Str × Str)
  | [] => if pat = [] then some ([], []) else none
  | c :: t =>
    if strHasPreCI pat (c :: t) then some ([], (c :: t).drop pat.length)
    else
      match splitFirstCI pat t with
      | some (a, b) => some (c :: a, b)
      | none => none

/-- Split at the last occurrence of the character `c`. -/
def splitLastChar (c : Char) : Str → Option (Str × Str)
  | [] => none
  | a :: t =>
    match splitLastChar c t with
    | some (m, r) => some (a :: m, r)
    | none => if a = c then some ([], t) else none

/-- Split at the last case-insensitive occurrence of `pat`. -/
def splitLastSubCI (pat : Str) : Str → Option (Str × Str)
  | [] => none
  | c :: t =>
    match splitLastSubCI pat t with
    | some (m, r) => some (c :: m, r)
    | none =>
      if strHasPreCI pat (c :: t) then some ([], (c :: t).drop pat.length)
      else none

/-- A character of the class-name group `[a-zA-Z0-9-_]`. -/
def classNameChar (c : Char) : Bool :=
  c.isAlpha || c.isDigit || c = '-' || c = '_'

/-- A `\w` word character. -/
def wordChar (c : Char) : Bool := c.isAlpha || c.isDigit || c = '_'

/-- The literal characters of `"\x7bdisplay:"`. -/
def displayPat : Str := ['\x7b', 'd', 'i', 's', 'p', 'l', 'a', 'y', ':']

/-- Model of `style.match(/\.([a-zA-Z0-9-_]+)\x7bdisplay\:([\w]+)/ig)` followed
    by the per-match re-`exec` of the same pattern: the ordered list of
    `(className, displayType)` pairs.  An empty result models the `null` that
    `match` returns when nothing matches.  (The class-name run cannot contain
    `'\x7b'`, so the regex engine's backtracking never changes a match and a
    single left-to-right scan is exact; on failure the engine advances one
    character, on success it resumes at the end of the match.) -/
def scanStyleRules : Nat → Str → List (Str × Str)
  | 0, _ => []
  | fuel + 1, s =>
    match s with
    | [] => []
    | c :: t =>
      if c = '.' then
        let cls := t.takeWhile classNameChar
        let t2 := t.dropWhile classNameChar
        if cls.isEmpty then scanStyleRules fuel t
        else if strHasPreCI displayPat t2 then
          let t3 := t2.drop displayPat.length
          let disp := t3.takeWhile wordChar
          if disp.isEmpty then scanStyleRules fuel t
          else (cls, disp) :: scanStyleRules fuel (t3.dropWhile wordChar)
        else scanStyleRules fuel t
      else scanStyleRules fuel t

/-- `scanStyleRules` with enough fuel for its input. -/
def styleRules (s : Str) : List (Str × Str) := scanStyleRules (s.length + 1) s

/-- JS object assignment `classes[className] = ...`: replace an existing
    binding or append a new one. -/
def upsertClass (m : List (Str × Bool)) (k : Str) (v : Bool) : List (Str × Bool) :=
  match m with
  | [] => [(k, v)]
  | (k2, v2) :: r => if k2 = k then (k, v) :: r else (k2, v2) :: upsertClass r k v

/-- The `classes` object: `classes[className] = (displayType.toLowerCase() == 'inline')`
    accumulated over the style-rule matches in order. -/
def classesOf (rules : List (Str × Str)) : List (Str × Bool) :=
  rules.foldl
    (fun acc kv =>
      upsertClass acc kv.1 (decide (toLowerStr kv.2 = ['i', 'n', 'l', 'i', 'n', 'e'])))
    []

/-- JS property read `classes[cls]` used as a boolean (`undefined` is falsy). -/
def lookupClass (m : List (Str × Bool)) (k : Str) : Bool :=
  match m with
  | [] => false
  | (k2, v) :: r => if k2 = k then v else lookupClass r k

/-- The literal characters of `"class=\""`. -/
def classAttrPat : Str := ['c', 'l', 'a', 's', 's', '=', '"']

/-- Model of `/class=\"(.+)\"/ig.exec(current)`, returning the captured group:
    the group runs from the first `class="` to the last following `'"'` and
    must be non-empty; when the greedy group cannot close, the engine retries
    from later occurrences of `class="`. -/
def execClassAttr : Nat → Str → Option Str
  | 0, _ => none
  | fuel + 1, s =>
    match splitFirstCI classAttrPat s with
    | none => none
    | some (_, b) =>
      match splitLastChar '"' b with
      | some (g, _) => if g.isEmpty then execClassAttr fuel b else some g
      | none => execClassAttr fuel b

/-- `contents.replace(/\s\s+/gm, '')`: delete every run of two or more
    whitespace characters. -/
def stripWsRuns : Nat → Str → Str
  | 0, s => s
  | fuel + 1, s =>
    match s with
    | [] => []
    | [c] => [c]
    | a :: b :: t =>
      if isWsChar a && isWsChar b then stripWsRuns fuel ((b :: t).dropWhile isWsChar)
      else a :: stripWsRuns fuel (b :: t)

/-- `contents.replace(/\r?\n|\r/gm, '')`: delete every CR and LF. -/
def stripNewlines (s : Str) : Str :=
  s.filter (fun c => !(c = '\n' || c = '\r'))

/-- The literal characters of `"<style>"`. -/
def styleOpenPat : Str := ['<', 's', 't', 'y', 'l', 'e', '>']

/-- The literal characters of `"</style>"`. -/
def styleClosePat : Str := ['<', '/', 's', 't', 'y', 'l', 'e', '>']

/-- `contents.replace(/(<style>.+<\/style>)/ig, "")`: by greediness the single
    match runs from the first `<style>` to the last `</style>` (with at least
    one character between them); nothing matches otherwise. -/
def removeStyleBlock (s : Str) : Str :=
  match splitFirstCI styleOpenPat s with
  | none => s
  | some (a, b) =>
    match splitLastSubCI styleClosePat b with
    | none => s
    | some (mid, rest) => if mid.isEmpty then s else a ++ rest

/-- The string `"undefined"` that JS appends when `ip += next` runs with
    `next` undefined. -/
def undefStr : Str := ['u', 'n', 'd', 'e', 'f', 'i', 'n', 'e', 'd']

/-- `var next = nextHtml ? nextHtml.split('<')[0] : undefined` (an empty
    `nextHtml` is falsy). -/
def nextText (nextHtml : Option Str) : Option Str :=
  match nextHtml with
  | some s => if s.isEmpty then none else some (s.takeWhile (fun c => decide (c ≠ '<')))
  | none => none

/-- One iteration of the hidemyass reconstruction loop body, for
    `current = contentsHtml[key]` and `nextHtml = contentsHtml[key + 1]`:
    the three `ip +=` contributions in order. -/
def hmaPair (classes : List (Str × Bool)) (current : Str) (nextHtml : Option Str) : Str :=
  let next := nextText nextHtml
  let cls := execClassAttr (current.length + 1) current
  let p1 := if (match current.head? with
                | some c => decide (c ≠ '<')
                | none => true)
            then current.takeWhile (fun c => decide (c ≠ '<')) else []
  let p2 := if containsSubstr ['i', 'n', 'l', 'i', 'n', 'e'] current
            then (match next with | some s => s | none => undefStr) else []
  let p3 := match cls with
    | some k =>
      if lookupClass classes k || (!k.isEmpty && k.all isDigitChar)
      then (match next with | some s => s | none => undefStr) else []
    | none => []
  p1 ++ p2 ++ p3

/-- The loop `for (key = 0; key < contentsHtml.length; key += 2)`. -/
def hmaLoop (classes : List (Str × Bool)) : List Str → Str
  | [] => []
  | [cur] => hmaPair classes cur none
  | cur :: nxt :: rest => hmaPair classes cur (some nxt) ++ hmaLoop classes rest

/-- One hidemyass table row as cheerio hands it to the adapter. -/
structure HmaRow : Type where
  /-- `.find('td:nth-child(2)>span>style').text()` -/
  styleText : Str
  /-- `.find('td:nth-child(3)').text().trim()` -/
  portText : Str
  /-- `.find("td:nth-child(2)>span").html()`; `none` models the `null` that
      cheerio returns when the selector matches nothing -/
  spanHtml : Option Str
  deriving DecidableEq, Repr

/-- The hidemyass per-row callback.  `styles.length` throws when `match`
    returned `null` (no style rules), and `contents.replace` throws when
    `.html()` returned `null`; the `validateIpAddress` call only logs, so it
    does not affect the produced record. -/
def hmaRow (r : HmaRow) : Except String Str :=
  match styleRules r.styleText with
  | [] => Except.error "TypeError: Cannot read property length of null"
  | rules =>
    match r.spanHtml with
    | none => Except.error "TypeError: Cannot read property replace of null"
    | some span0 =>
      let classes := classesOf rules
      let contents := removeStyleBlock (stripNewlines (stripWsRuns (span0.length + 1) span0))
      let contentsHtml := splitChar '>' contents
      Except.ok (hmaLoop classes contentsHtml ++ ':' :: r.portText)

/-- The hidemyass `.each` fold: a throw in any row aborts the whole
    extraction. -/
def hmaExtract : List HmaRow → Except String (List Str)
  | [] => Except.ok []
  | r :: rest =>
    match hmaRow r with
    | Except.error e => Except.error e
    | Except.ok ip =>
      match hmaExtract rest with
      | Except.error e => Except.error e
      | Except.ok l => Except.ok (ip :: l)

/-- JSON values, as produced by `JSON.parse`. -/
inductive Json : Type where
  | jnull
  | jbool (b : Bool)
  | jnum (n : Int)
  | jstr (s : Str)
  | jarr (l : List Json)
  | jobj (fields : List (Str × Json))

/-- Property lookup on a parsed JSON object. -/
def jsonLookup (fields : List (Str × Json)) (k : Str) : Option Json :=
  match fields with
  | [] => none
  | (k2, v) :: r => if k2 = k then some v else jsonLookup r k

mutual

/-- JS string coercion of a JSON value (as in `proxy.ip + ':' + proxy.port`). -/
def jsonStrOf : Json → Str
  | .jnull => ['n', 'u', 'l', 'l']
  | .jbool true => ['t', 'r', 'u', 'e']
  | .jbool false => ['f', 'a', 'l', 's', 'e']
  | .jnum n => intStr n
  | .jstr s => s
  | .jarr l => joinChar ',' (jsonStrListOf l)
  | .jobj _ => ['[', 'o', 'b', 'j', 'e', 'c', 't', ' ', 'O', 'b', 'j', 'e', 'c', 't', ']']

/-- String coercions of a list of JSON values. -/
def jsonStrListOf : List Json → List Str
  | [] => []
  | j :: t => jsonStrOf j :: jsonStrListOf t

end

/-- JS string coercion including the `undefined` case of a missing property. -/
def jsonConcatStr : Option Json → Str
  | none => undefStr
  | some j => jsonStrOf j

/-- The nordvpn `proxies.forEach` body over the parsed array.  Reading `.type`
    on a `null` element throws; a non-`'HTTP'` `type` (including the
    `undefined` read on primitive elements) skips the element; for an `'HTTP'`
    element, `validateIpAddress(proxy.ip)` calls `.match` on the `ip` value
    and throws unless it is a string. -/
def nordvpnItems : List Json → Except String (List Str)
  | [] => Except.ok []
  | j :: rest =>
    match j with
    | Json.jnull => Except.error "TypeError: Cannot read property type of null"
    | Json.jobj fields =>
      -- loose equality `proxy.type == 'HTTP'`: true exactly for the string
      -- 'HTTP' among JSON values (non-string values coerce unequal)
      let isHttp := match jsonLookup fields ['t', 'y', 'p', 'e'] with
        | some (Json.jstr s) => decide (s = ['H', 'T', 'T', 'P'])
        | _ => false
      if isHttp then
        match jsonLookup fields ['i', 'p'] with
        | some (Json.jstr ip) =>
          (match nordvpnItems rest with
           | Except.error e => Except.error e
           | Except.ok l =>
             Except.ok ((ip ++ ':' :: jsonConcatStr (jsonLookup fields ['p', 'o', 'r', 't'])) :: l))
        | _ => Except.error "TypeError: ip.match is not a function"
      else nordvpnItems rest
    | _ => nordvpnItems rest

/-- The nordvpn branch: `JSON.parse(html)` throws on an invalid body (`none`),
    `proxies.forEach` throws unless the parsed value is an array. -/
def nordvpnExtract : Option Json → Except String (List Str)
  | none => Except.error "SyntaxError: Unexpected token in JSON"
  | some (Json.jarr l) => nordvpnItems l
  | some _ => Except.error "TypeError: proxies.forEach is not a function"

/-- A fetched document as seen by `extractProxies`: the constructor records
    which `data.url.indexOf(...)` branch the URL selects, and carries the
    collaborator view of the body that the branch consumes (cheerio rows for
    the table scrapers, the `JSON.parse` outcome for nordvpn).  `unmatched`
    is the final `else` (no processor for the URL).  The remaining adapters of
    the chain are structurally identical to the `incloak` one and are not
    needed by any claim. -/
inductive FetchedDoc : Type where
  | hidemyass (rows : List HmaRow)
  | incloak (rows : List (Str × Str))
  | nordvpn (parsed : Option Json)
  | unmatched

/-- Translation of `Fetch.prototype.extractProxies`: an `Except.error` marks an
    exception thrown by the adapter code (there is no `try`/`catch` anywhere in
    fetch.js, so it propagates out of the `fetchPage` event handler). -/
def extractProxies : FetchedDoc → Except String (List Str)
  | .hidemyass rows => hmaExtract rows
  | .incloak rows =>
    -- `ips.push(ip + ':' + port)` per row; `validateIpAddress` only logs
    Except.ok (rows.map (fun rc => rc.1 ++ ':' :: rc.2))
  | .nordvpn parsed => nordvpnExtract parsed
  | .unmatched => Except.ok []

/-! ## Orchestrator (`Fetch.prototype.main`, the `'fetchPage'` event handler)

The handler owns the mutable triple `(this._urlIndex, this._urlPage,
this._proxies)` and, for each fetch outcome, either issues another
`fetchPage()` (`StepOut.next`, possibly after advancing the source) or calls
`save()` (`StepOut.save`).  The transport outcome is `(error,
response.statusCode, body)`; for the synthetic end-of-pagination result the
response object is `{}`, i.e. the status is `none`. -/

/-- The orchestrator's mutable state. -/
structure OState : Type where
  urlIndex : Nat
  urlPage : PVal
  proxies : List Str
  deriving DecidableEq, Repr

/-- What the handler does next: fetch again, or flush the store. -/
inductive StepOut : Type where
  | next (st : OState)
  | save (st : OState)
  deriving DecidableEq, Repr

/-- Truthiness of `this.urls[this._urlIndex + 1]` (an absent entry is
    `undefined`, an empty string is falsy). -/
def hasNextUrl (urls : List Str) (i : Nat) : Bool :=
  match urls.get? (i + 1) with
  | some u => !u.isEmpty
  | none => false

/-- Translation of the `'fetchPage'` handler body in `main`.  An
    `Except.error` is an exception thrown by `extractProxies` (the handler has
    no `try`/`catch`). -/
def mainStep (urls : List Str) (st : OState) (err : Bool) (status : Option Int)
    (singlePage : Bool) (doc : FetchedDoc) : Except String StepOut :=
  if err = false ∧ status = some 200 then
    match extractProxies doc with
    | Except.error e => Except.error e
    | Except.ok proxies =>
      if 0 < proxies.length then
        let st1 : OState := { st with proxies := st.proxies ++ proxies }
        if singlePage && hasNextUrl urls st.urlIndex then
          Except.ok (StepOut.next
            { st1 with urlIndex := st.urlIndex + 1, urlPage := PVal.num (-1) })
        else if singlePage && !hasNextUrl urls st.urlIndex then
          Except.ok (StepOut.save st1)
        else
          Except.ok (StepOut.next st1)
      else if hasNextUrl urls st.urlIndex then
        Except.ok (StepOut.next
          { st with urlIndex := st.urlIndex + 1, urlPage := PVal.num (-1) })
      else Except.ok (StepOut.save st)
  else
    -- transport error, timeout, or non-200 status
    if hasNextUrl urls st.urlIndex then
      Except.ok (StepOut.next
        { st with urlIndex := st.urlIndex + 1, urlPage := PVal.num (-1) })
    else Except.ok (StepOut.save st)

/-- The whole observable state of a `Fetch` instance: the configuration
    fields and the mutable fetch state. -/
structure FullState : Type where
  urls : List Str
  outputFile : Str
  retryMins : Option Nat
  urlIndex : Nat
  urlPage : PVal
  proxies : List Str
  deriving DecidableEq, Repr

/-- The scheduled re-entry body in `save()` when `--retry` is set:

    `_this._urlIndex = 0; _this.urlPage = -1; _this._proxies = [];`

    The middle assignment writes a fresh property named `urlPage`: the
    pagination state lives in `_urlPage` (with an underscore, as read and
    written everywhere else in fetch.js), so the pagination state is left at
    whatever value the previous cycle's last source stored, and only the
    source index and the accumulator are reset.  The configuration fields are
    untouched. -/
def retryReset (st : FullState) : FullState :=
  { st with urlIndex := 0, proxies := [] }

/-! ## Record store (`Fetch.prototype.saveProxies`)

The filesystem is a collaborator: the model takes whether the resolved output
path exists and, if so, its current contents, and returns the contents
written back, the final in-memory list, and the duplicate count
`oldTotal - this._proxies.length` that the function reports (it is printed
only when positive; the `{date}` substitution in the path does not affect the
contents). -/

/-- JS `Array.from(new Set(l))`: keep the first occurrence of each element,
    in insertion order. `seen` is the set built so far. -/
def jsSetDedupGo (seen : List Str) : List Str → List Str
  | [] => []
  | a :: t =>
    if a ∈ seen then jsSetDedupGo seen t
    else a :: jsSetDedupGo (a :: seen) t

/-- JS `Array.from(new Set(l))`. -/
def jsSetDedup (l : List Str) : List Str := jsSetDedupGo [] l

/-- The outcome of one `saveProxies()` call. -/
structure SaveResult : Type where
  /-- contents passed to `fs.writeFileSync` -/
  written : Str
  /-- the final value of `this._proxies` -/
  finalList : List Str
  /-- the reported duplicate count `oldTotal - this._proxies.length` -/
  dupes : Nat
  deriving DecidableEq, Repr

/-- Translation of `Fetch.prototype.saveProxies`: when the output file exists
    its contents are split on newlines and appended after the new records,
    the concatenation is deduplicated with `Array.from(new Set(...))`, and
    the result is written back newline-joined; when it does not exist the
    accumulator is written as-is, with no deduplication. -/
def saveProxies (proxies : List Str) (fileIsThere : Bool) (prior : Str) : SaveResult :=
  if fileIsThere then
    let origProxies := splitChar '\n' prior
    let merged := proxies ++ origProxies
    let deduped := jsSetDedup merged
    { written := joinChar '\n' deduped, finalList := deduped,
      dupes := merged.length - deduped.length }
  else
    { written := joinChar '\n' proxies, finalList := proxies, dupes := 0 }

/-! ## The cool-proxy rot13/base64 pipeline

The cool-proxy adapter decodes `str_rot13("payload")` tokens with
`Buffer.from(str_rot13(parts[1]), 'base64').toString()`.  Strings are modelled
as lists of character codes (`List Nat`); `str_rot13` is translated from the
source, and `Buffer.from(_, 'base64')` is the standard base64 decoder on the
alphabet `A-Z a-z 0-9 + /` with `'='` (code 61) padding. -/

/-- `s.toLowerCase()` on one character code (ASCII). -/
def jsToLowerCode (n : Nat) : Nat :=
  if 65 ≤ n ∧ n ≤ 90 then n + 32 else n

/-- The character transform of `str_rot13`: `/[a-z]/gi` characters are shifted
    by `s.charCodeAt(0) + (s.toLowerCase() < 'n' ? 13 : -13)`; everything else
    (digits, separators) is untouched. -/
def jsRot13 (n : Nat) : Nat :=
  if (65 ≤ n ∧ n ≤ 90) ∨ (97 ≤ n ∧ n ≤ 122) then
    (if jsToLowerCode n < 110 then n + 13 else n - 13)
  else n

/-- `str_rot13` over a whole string of character codes. -/
def rot13All (l : List Nat) : List Nat := l.map jsRot13

/-- The base64 alphabet: value `v < 64` to character code. -/
def b64Char (v : Nat) : Nat :=
  if v < 26 then 65 + v
  else if v < 52 then 97 + (v - 26)
  else if v < 62 then 48 + (v - 52)
  else if v = 62 then 43
  else 47

/-- Character code to base64 value. -/
def b64Val (c : Nat) : Option Nat :=
  if 65 ≤ c ∧ c ≤ 90 then some (c - 65)
  else if 97 ≤ c ∧ c ≤ 122 then some (c - 97 + 26)
  else if 48 ≤ c ∧ c ≤ 57 then some (c - 48 + 52)
  else if c = 43 then some 62
  else if c = 47 then some 63
  else none

/-- Standard base64 encoding of a byte sequence (with `'='` padding). -/
def b64Encode : List Nat → List Nat
  | [] => []
  | [a] => [b64Char (a / 4), b64Char (a % 4 * 16), 61, 61]
  | [a, b] => [b64Char (a / 4), b64Char (a % 4 * 16 + b / 16), b64Char (b % 16 * 4), 61]
  | a :: b :: c :: rest =>
    b64Char (a / 4) :: b64Char (a % 4 * 16 + b / 16) ::
    b64Char (b % 16 * 4 + c / 64) :: b64Char (c % 64) :: b64Encode rest

/-- Base64 decoding (the behaviour of `Buffer.from(_, 'base64')` on
    well-formed input; malformed tails are skipped leniently). -/
def b64Decode : List Nat → List Nat
  | a :: b :: c :: d :: rest =>
    (match b64Val a, b64Val b with
     | some va, some vb =>
       let x := va * 4 + vb / 16
       if c = 61 then x :: b64Decode rest
       else
         (match b64Val c with
          | some vc =>
            let y := vb % 16 * 16 + vc / 4
            if d = 61 then x :: y :: b64Decode rest
            else
              (match b64Val d with
               | some vd => x :: y :: (vc % 4 * 64 + vd) :: b64Decode rest
               | none => x :: y :: b64Decode rest)
          | none => x :: b64Decode rest)
     | _, _ => b64Decode rest)
  | _ => []

/-- The adapter's decode pipeline:
    `Buffer.from(str_rot13(payload), 'base64').toString()`. -/
def coolProxyDecode (payload : List Nat) : List Nat :=
  b64Decode (rot13All payload)

/-- The obfuscation the site applies (and the round-trip test in the spec):
    base64-encode, then rot13 the ASCII letters of the result. -/
def obfuscatePayload (s : List Nat) : List Nat :=
  rot13All (b64Encode s)

/-! ## Statement-support definitions -/

/-- A non-empty string of decimal digits (the written form of the `A`, `B`
    parameters of a pagination placeholder). -/
def digitStr (s : Str) : Prop := s ≠ [] ∧ ∀ c ∈ s, isDigitChar c = true

instance (s : Str) : Decidable (digitStr s) := by
  unfold digitStr; infer_instance

/-- A URL template carrying a `\x7bpage:A/B\x7d` placeholder, with the
    placeholder token spelled out. -/
def boundedTmpl (pre sA sB suf : Str) : Str :=
  pre ++ (pagePat ++ ((':' :: (sA ++ ('/' :: sB))) ++ ('\x7d' :: suf)))

/-- A URL template carrying a `\x7bpage:A-B\x7d` placeholder. -/
def stridedTmpl (pre sA sB suf : Str) : Str :=
  pre ++ (pagePat ++ ((':' :: (sA ++ ('-' :: sB))) ++ ('\x7d' :: suf)))

/-- The expected per-source trace of a `\x7bpage:A/B\x7d` source: transport
    calls for pages `A, A+1, ..., B` in order, then the synthetic empty
    result for page `B + 1`, produced without a transport call. -/
def boundedExpect (pre sA suf : Str) (A B : Nat) : List SourceEvent :=
  SourceEvent.call (pre ++ sA ++ suf) ::
    (((List.range' (A + 1) (B - A)).map
        fun k => SourceEvent.call (pre ++ natRepr k ++ suf)) ++
      [SourceEvent.syntheticEnd (pre ++ natRepr (B + 1) ++ suf)])

/-- The numeric value substituted into the `n`-th (0-based) resolved URL of a
    paginated source. -/
def pageValAt (tmpl : Str) (fuel n : Nat) : Option Int :=
  ((pageStrs tmpl fuel).get? n).bind toNumberLC

/-- The common hypotheses of the pagination claims: the literal prefix of the
    template contains no `'\x7b'`, the suffix no `'\x7d'`, and the `A`, `B`
    parameters are written as non-empty digit strings. -/
def tmplHyps (pre sA sB suf : Str) : Prop :=
  (∀ c ∈ pre, c ≠ '\x7b') ∧ (∀ c ∈ suf, c ≠ '\x7d') ∧ digitStr sA ∧ digitStr sB

instance (pre sA sB suf : Str) : Decidable (tmplHyps pre sA sB suf) := by
  unfold tmplHyps; infer_instance

/-- The `this._urlPage` value of a `\x7bpage:A-B\x7d` source whose next page
    number is `v`: the zero-padded string form when the template requested
    left-padding and `v < 10`, the plain number otherwise. -/
def stridedPage (sA : Str) (v : Nat) : PVal :=
  if leftPadLoose sA && decide (v < 10) then PVal.str ('0' :: natRepr v)
  else PVal.num ((v : Int))

/-- The string substituted for a later page of a `\x7bpage:A-B\x7d` source. -/
def stridedPageStr (sA : Str) (v : Nat) : Str := pvToString (stridedPage sA v)

/-- The string substituted for the first page of a `\x7bpage:A-B\x7d` source:
    the written start value `sA`, left-padded with one `'0'` when the template
    requested left-padding and its value is below 10. -/
def stridedFirstStr (sA : Str) : Str :=
  if leftPadLoose sA && jsLtInt (PVal.str sA) 10 then '0' :: sA else sA

/-- Did extraction return a list (rather than throw)? -/
def isOkE (e : Except String (List Str)) : Bool :=
  match e with
  | Except.ok _ => true
  | Except.error _ => false

/-! # Lemmas about the string primitives -/

theorem strHasPre_append (pat r : Str) : strHasPre pat (pat ++ r) = true := by
  induction pat with
  | nil => rfl
  | cons p ps ih => simp [strHasPre, ih]

theorem splitFirst_pre (x : Char) (pt pre r : Str) (hpre : ∀ c ∈ pre, c ≠ x) :
    splitFirst (x :: pt) (pre ++ ((x :: pt) ++ r)) = some (pre, r) := by
  induction pre with
  | nil =>
    have h1 : strHasPre (x :: pt) ((x :: pt) ++ r) = true := strHasPre_append _ _
    simp only [List.nil_append]
    rw [List.cons_append]
    unfold splitFirst
    rw [← List.cons_append, h1]
    simp [List.drop_left]
  | cons c pre ih =>
    have hxc : (x = c) = False :=
      eq_false (fun hxc => (hpre c (List.mem_cons_self _ _)) hxc.symm)
    have hne : strHasPre (x :: pt) (c :: (pre ++ ((x :: pt) ++ r))) = false := by
      unfold strHasPre
      simp [hxc]
    rw [List.cons_append]
    unfold splitFirst
    rw [hne]
    simp only [Bool.false_eq_true, if_false]
    rw [ih (fun a ha => hpre a (List.mem_cons_of_mem _ ha))]

theorem splitLastBrace_none (s : Str) (h : ∀ c ∈ s, c ≠ '\x7d') :
    splitLastBrace s = none := by
  induction s with
  | nil => rfl
  | cons c t ih =>
    unfold splitLastBrace
    rw [ih (fun a ha => h a (List.mem_cons_of_mem _ ha))]
    simp [h c (List.mem_cons_self _ _)]

theorem splitLastBrace_concat (x suf : Str) (h : ∀ c ∈ suf, c ≠ '\x7d') :
    splitLastBrace (x ++ ('\x7d' :: suf)) = some (x, suf) := by
  induction x with
  | nil =>
    simp only [List.nil_append]
    unfold splitLastBrace
    rw [splitLastBrace_none suf h]
    simp
  | cons c t ih =>
    rw [List.cons_append]
    unfold splitLastBrace
    rw [ih]

theorem regexExecPage_concat (pre params suf : Str)
    (hpre : ∀ c ∈ pre, c ≠ '\x7b') (hsuf : ∀ c ∈ suf, c ≠ '\x7d') :
    regexExecPage (pre ++ (pagePat ++ (params ++ ('\x7d' :: suf)))) =
      some (pre, params, suf) := by
  have h1 : splitFirst pagePat (pre ++ (pagePat ++ (params ++ ('\x7d' :: suf)))) =
      some (pre, params ++ ('\x7d' :: suf)) :=
    splitFirst_pre '\x7b' ['p', 'a', 'g', 'e'] pre (params ++ ('\x7d' :: suf)) hpre
  unfold regexExecPage
  rw [h1]
  simp only [splitLastBrace_concat params suf hsuf]

theorem splitChar_cons_eq (c : Char) (t : Str) :
    splitChar c (c :: t) = [] :: splitChar c t := by
  conv_lhs => unfold splitChar
  simp

theorem splitChar_cons_ne (c a : Char) (t : Str) (hne : a ≠ c) :
    splitChar c (a :: t) =
      (match splitChar c t with
       | [] => [[a]]
       | h :: r => (a :: h) :: r) := by
  conv_lhs => unfold splitChar
  simp [hne]

theorem splitChar_not_mem (c : Char) (s : Str) (h : ∀ a ∈ s, a ≠ c) :
    splitChar c s = [s] := by
  induction s with
  | nil => rfl
  | cons a t ih =>
    rw [splitChar_cons_ne c a t (h a (List.mem_cons_self _ _))]
    rw [ih (fun b hb => h b (List.mem_cons_of_mem _ hb))]

theorem splitChar_append (c : Char) (x y : Str) (h : ∀ a ∈ x, a ≠ c) :
    splitChar c (x ++ (c :: y)) = x :: splitChar c y := by
  induction x with
  | nil => simp [splitChar_cons_eq]
  | cons a t ih =>
    rw [List.cons_append]
    rw [splitChar_cons_ne c a _ (h a (List.mem_cons_self _ _))]
    rw [ih (fun b hb => h b (List.mem_cons_of_mem _ hb))]

theorem splitChar_ne_nil (c : Char) (s : Str) : splitChar c s ≠ [] := by
  induction s with
  | nil => simp [splitChar]
  | cons a t ih =>
    by_cases hac : a = c
    · subst hac
      rw [splitChar_cons_eq]
      simp
    · rw [splitChar_cons_ne c a t hac]
      cases hsp : splitChar c t with
      | nil => simp
      | cons p r => simp

theorem splitChar_no_sep (c : Char) (s : Str) :
    ∀ p ∈ splitChar c s, ∀ a ∈ p, a ≠ c := by
  induction s with
  | nil =>
    intro p hp a ha
    simp [splitChar] at hp
    subst hp
    simp at ha
  | cons b t ih =>
    intro p hp a ha
    by_cases hbc : b = c
    · subst hbc
      rw [splitChar_cons_eq] at hp
      rcases List.mem_cons.mp hp with h1 | h2
      · subst h1; simp at ha
      · exact ih p h2 a ha
    · rw [splitChar_cons_ne c b t hbc] at hp
      cases hsp : splitChar c t with
      | nil => exact absurd hsp (splitChar_ne_nil c t)
      | cons q r =>
        rw [hsp] at hp
        rcases List.mem_cons.mp hp with h1 | h2
        · subst h1
          rcases List.mem_cons.mp ha with h3 | h4
          · subst h3; exact hbc
          · exact ih q (hsp ▸ List.mem_cons_self _ _) a h4
        · exact ih p (hsp ▸ List.mem_cons_of_mem _ h2) a ha

theorem splitChar_join (c : Char) (l : List Str) (hl : l ≠ [])
    (h : ∀ x ∈ l, ∀ a ∈ x, a ≠ c) : splitChar c (joinChar c l) = l := by
  induction l with
  | nil => exact absurd rfl hl
  | cons x t ih =>
    cases t with
    | nil =>
      unfold joinChar
      exact splitChar_not_mem c x (h x (List.mem_cons_self _ _))
    | cons y r =>
      unfold joinChar
      rw [splitChar_append c x (joinChar c (y :: r)) (h x (List.mem_cons_self _ _))]
      rw [ih (by simp) (fun z hz a ha => h z (List.mem_cons_of_mem _ hz) a ha)]

theorem containsChar_false (c : Char) (s : Str) (h : ∀ a ∈ s, a ≠ c) :
    containsChar c s = false := by
  simp only [containsChar, List.any_eq_false]
  intro a ha
  simp [h a ha]

theorem containsChar_true (c : Char) (s : Str) (h : c ∈ s) :
    containsChar c s = true := by
  simp only [containsChar, List.any_eq_true]
  exact ⟨c, h, by simp⟩

/-! # Lemmas about digits and numerals -/

theorem digit_toNat {c : Char} (h : isDigitChar c = true) :
    48 ≤ c.toNat ∧ c.toNat ≤ 57 := by
  simpa [isDigitChar] using h

theorem digit_ne {c x : Char} (h : isDigitChar c = true)
    (hx : isDigitChar x = false) : c ≠ x := by
  intro he
  subst he
  rw [h] at hx
  exact Bool.true_eq_false.mp hx

theorem digit_not_ws {c : Char} (h : isDigitChar c = true) :
    isWsChar c = false := by
  cases hw : isWsChar c with
  | false => rfl
  | true =>
    exfalso
    have := digit_toNat h
    rcases (by simpa [isWsChar] using hw :
        ((c = ' ' ∨ c = '\t') ∨ c = '\n') ∨ c = '\r') with
      ((h1 | h1) | h1) | h1 <;> (subst h1; revert this; decide)

theorem dropWhile_none {p : Char → Bool} {s : Str} (h : ∀ a ∈ s, p a = false) :
    s.dropWhile p = s := by
  cases s with
  | nil => rfl
  | cons a t =>
    rw [List.dropWhile_cons]
    simp [h a (List.mem_cons_self _ _)]

theorem takeWhile_all {p : Char → Bool} {s : Str} (h : ∀ a ∈ s, p a = true) :
    s.takeWhile p = s := by
  induction s with
  | nil => rfl
  | cons a t ih =>
    rw [List.takeWhile_cons]
    simp only [h a (List.mem_cons_self _ _), if_true]
    rw [ih (fun b hb => h b (List.mem_cons_of_mem _ hb))]

theorem trimWs_digits {s : Str} (h : ∀ a ∈ s, isDigitChar a = true) :
    trimWs s = s := by
  unfold trimWs
  rw [dropWhile_none (fun a ha => digit_not_ws (h a ha))]
  rw [dropWhile_none (fun a ha => digit_not_ws (h a (List.mem_reverse.mp ha)))]
  exact List.reverse_reverse s

theorem toNumberLC_digits {s : Str} (hne : s ≠ [])
    (h : ∀ a ∈ s, isDigitChar a = true) :
    toNumberLC s = some ((digitsVal s : Int)) := by
  obtain ⟨c, t, rfl⟩ := List.exists_cons_of_ne_nil hne
  have hd := h c (List.mem_cons_self _ _)
  unfold toNumberLC
  rw [trimWs_digits h]
  simp only [reduceCtorEq, if_false]
  have hcm : (c :: t).head? = some c := rfl
  rw [hcm]
  have h1 : (some c = some '-') = False := by
    simp [digit_ne hd (by decide : isDigitChar '-' = false)]
  have h2 : (some c = some '+') = False := by
    simp [digit_ne hd (by decide : isDigitChar '+' = false)]
  simp only [h1, h2, if_false]
  have h3 : (c :: t).all isDigitChar = true := List.all_eq_true.mpr h
  simp [h3]

theorem parseIntLC_digits {s : Str} (hne : s ≠ [])
    (h : ∀ a ∈ s, isDigitChar a = true) :
    parseIntLC s = some ((digitsVal s : Int)) := by
  obtain ⟨c, t, rfl⟩ := List.exists_cons_of_ne_nil hne
  have hd := h c (List.mem_cons_self _ _)
  unfold parseIntLC
  rw [dropWhile_none (fun a ha => digit_not_ws (h a ha))]
  dsimp only
  have hcm : (c :: t).head? = some c := rfl
  rw [hcm]
  have h1 : (some c = some '-') = False := by
    simp [digit_ne hd (by decide : isDigitChar '-' = false)]
  have h2 : (some c = some '+') = False := by
    simp [digit_ne hd (by decide : isDigitChar '+' = false)]
  simp only [h1, h2, if_false]
  rw [takeWhile_all h]
  simp

theorem digitsVal_append_digit (s : Str) (c : Char) :
    digitsVal (s ++ [c]) = 10 * digitsVal s + digitVal c := by
  unfold digitsVal
  rw [List.foldl_append]
  rfl

theorem digitsVal_cons_zero (s : Str) : digitsVal ('0' :: s) = digitsVal s := by
  unfold digitsVal
  rw [List.foldl_cons]
  norm_num [digitVal, show '0'.toNat = 48 from by decide]

theorem digitChar_spec : ∀ d : Nat, d < 10 →
    isDigitChar (digitChar d) = true ∧ digitVal (digitChar d) = d := by
  decide

theorem natReprGo_spec : ∀ fuel n : Nat, n < fuel →
    (natReprGo fuel n ≠ [] ∧ (∀ c ∈ natReprGo fuel n, isDigitChar c = true) ∧
      digitsVal (natReprGo fuel n) = n) := by
  intro fuel
  induction fuel with
  | zero => intro n hn; exact absurd hn (Nat.not_lt_zero n)
  | succ f ih =>
    intro n hn
    unfold natReprGo
    by_cases h10 : n < 10
    · simp only [h10, if_true]
      refine ⟨by simp, ?_, ?_⟩
      · intro c hc
        rcases List.mem_singleton.mp hc with rfl
        exact ((digitChar_spec n h10).1)
      · show digitsVal [digitChar n] = n
        have : digitsVal [digitChar n] = digitVal (digitChar n) := by
          unfold digitsVal
          simp [digitVal]
        rw [this, (digitChar_spec n h10).2]
    · simp only [h10, if_false]
      have hdiv : n / 10 < f := by
        have h1 : n / 10 < n := Nat.div_lt_self (by omega) (by omega)
        omega
      obtain ⟨hne, hdig, hval⟩ := ih (n / 10) hdiv
      have hm : n % 10 < 10 := Nat.mod_lt n (by omega)
      refine ⟨by simp, ?_, ?_⟩
      · intro c hc
        rcases List.mem_append.mp hc with h1 | h1
        · exact hdig c h1
        · rcases List.mem_singleton.mp h1 with rfl
          exact (digitChar_spec _ hm).1
      · rw [digitsVal_append_digit, hval, (digitChar_spec _ hm).2]
        omega

theorem natRepr_ne_nil (n : Nat) : natRepr n ≠ [] :=
  (natReprGo_spec (n + 1) n (Nat.lt_succ_self n)).1

theorem natRepr_digits (n : Nat) : ∀ c ∈ natRepr n, isDigitChar c = true :=
  (natReprGo_spec (n + 1) n (Nat.lt_succ_self n)).2.1

theorem digitsVal_natRepr (n : Nat) : digitsVal (natRepr n) = n :=
  (natReprGo_spec (n + 1) n (Nat.lt_succ_self n)).2.2

theorem toNumberLC_natRepr (n : Nat) :
    toNumberLC (natRepr n) = some ((n : Int)) := by
  rw [toNumberLC_digits (natRepr_ne_nil n) (natRepr_digits n), digitsVal_natRepr]

theorem toNumberLC_zero_natRepr (n : Nat) :
    toNumberLC ('0' :: natRepr n) = some ((n : Int)) := by
  rw [toNumberLC_digits (by simp) ?hall, digitsVal_cons_zero, digitsVal_natRepr]
  case hall =>
    intro a ha
    rcases List.mem_cons.mp ha with rfl | h1
    · decide
    · exact natRepr_digits n a h1

theorem parseIntLC_natRepr (n : Nat) :
    parseIntLC (natRepr n) = some ((n : Int)) := by
  rw [parseIntLC_digits (natRepr_ne_nil n) (natRepr_digits n), digitsVal_natRepr]

theorem parseIntLC_zero_natRepr (n : Nat) :
    parseIntLC ('0' :: natRepr n) = some ((n : Int)) := by
  rw [parseIntLC_digits (by simp) ?hall, digitsVal_cons_zero, digitsVal_natRepr]
  case hall =>
    intro a ha
    rcases List.mem_cons.mp ha with rfl | h1
    · decide
    · exact natRepr_digits n a h1

theorem intStr_of_nat (n : Nat) : intStr ((n : Int)) = natRepr n := by
  unfold intStr
  have : ¬ ((n : Int) < 0) := by omega
  simp [this]

/-! # Lemmas about the pagination resolver -/

theorem digits_ne_of (c x : Char) (h : isDigitChar c = true)
    (hx : isDigitChar x = false) : c ≠ x := digit_ne h hx

theorem classifyParams_slash (sA sB : Str) (hA : digitStr sA) (hB : digitStr sB) :
    classifyParams (':' :: (sA ++ ('/' :: sB))) =
      { startPage := .str sA, inc := .num 1, leftPad := false,
        maxPage := some sB } := by
  obtain ⟨hAne, hAd⟩ := hA
  obtain ⟨hBne, hBd⟩ := hB
  have hcolon : containsChar ':' (':' :: (sA ++ ('/' :: sB))) = true :=
    containsChar_true _ _ (List.mem_cons_self _ _)
  have hnc : ∀ a ∈ sA ++ ('/' :: sB), a ≠ ':' := by
    intro a ha
    rcases List.mem_append.mp ha with h1 | h1
    · exact digit_ne (hAd a h1) (by decide)
    · rcases List.mem_cons.mp h1 with rfl | h2
      · decide
      · exact digit_ne (hBd a h2) (by decide)
  have hsplit : splitChar ':' (':' :: (sA ++ ('/' :: sB))) = [[], sA ++ ('/' :: sB)] := by
    rw [splitChar_cons_eq, splitChar_not_mem _ _ hnc]
  have hnd : ∀ a ∈ sA ++ ('/' :: sB), a ≠ '-' := by
    intro a ha
    rcases List.mem_append.mp ha with h1 | h1
    · exact digit_ne (hAd a h1) (by decide)
    · rcases List.mem_cons.mp h1 with rfl | h2
      · decide
      · exact digit_ne (hBd a h2) (by decide)
  have hdash : containsChar '-' (sA ++ ('/' :: sB)) = false := containsChar_false _ _ hnd
  have hslash : containsChar '/' (sA ++ ('/' :: sB)) = true :=
    containsChar_true _ _ (by simp)
  have hsplit2 : splitChar '/' (sA ++ ('/' :: sB)) = [sA, sB] := by
    rw [splitChar_append _ _ _ (fun a ha => digit_ne (hAd a ha) (by decide)),
        splitChar_not_mem _ _ (fun a ha => digit_ne (hBd a ha) (by decide))]
  unfold classifyParams
  simp only [hcolon, if_true, hsplit]
  simp [hdash, hslash, hsplit2]

theorem classifyParams_dash (sA sB : Str) (hA : digitStr sA) (hB : digitStr sB) :
    classifyParams (':' :: (sA ++ ('-' :: sB))) =
      { startPage := .str sA, inc := .str sB, leftPad := leftPadLoose sA,
        maxPage := none } := by
  obtain ⟨hAne, hAd⟩ := hA
  obtain ⟨hBne, hBd⟩ := hB
  have hcolon : containsChar ':' (':' :: (sA ++ ('-' :: sB))) = true :=
    containsChar_true _ _ (List.mem_cons_self _ _)
  have hnc : ∀ a ∈ sA ++ ('-' :: sB), a ≠ ':' := by
    intro a ha
    rcases List.mem_append.mp ha with h1 | h1
    · exact digit_ne (hAd a h1) (by decide)
    · rcases List.mem_cons.mp h1 with rfl | h2
      · decide
      · exact digit_ne (hBd a h2) (by decide)
  have hsplit : splitChar ':' (':' :: (sA ++ ('-' :: sB))) = [[], sA ++ ('-' :: sB)] := by
    rw [splitChar_cons_eq, splitChar_not_mem _ _ hnc]
  have hdash : containsChar '-' (sA ++ ('-' :: sB)) = true :=
    containsChar_true _ _ (by simp)
  have hsplit2 : splitChar '-' (sA ++ ('-' :: sB)) = [sA, sB] := by
    rw [splitChar_append _ _ _ (fun a ha => digit_ne (hAd a ha) (by decide)),
        splitChar_not_mem _ _ (fun a ha => digit_ne (hBd a ha) (by decide))]
  unfold classifyParams
  simp only [hcolon, if_true, hsplit]
  simp [hdash, hsplit2]

theorem fetchPage_bounded_start (pre sA sB suf : Str)
    (hpre : ∀ c ∈ pre, c ≠ '\x7b') (hsuf : ∀ c ∈ suf, c ≠ '\x7d')
    (hA : digitStr sA) (hB : digitStr sB) :
    fetchPage (boundedTmpl pre sA sB suf) (PVal.num (-1)) =
      { reachedEnd := false, url := pre ++ sA ++ suf,
        requestUrl := stripPostMark (pre ++ sA ++ suf),
        pageStr := some sA, singlePage := false,
        newUrlPage := PVal.num ((digitsVal sA : Int) + 1) } := by
  unfold fetchPage boundedTmpl
  rw [regexExecPage_concat _ _ _ hpre hsuf]
  dsimp only
  unfold fetchPageCore
  rw [classifyParams_slash sA sB hA hB]
  have hre : jsGtStr (PVal.num (-1)) sB = false := by
    unfold jsGtStr
    rw [toNumberLC_digits hB.1 hB.2]
    simp only [decide_eq_false_iff_not]
    omega
  have hpa : parseIntLC sA = some ((digitsVal sA : Int)) :=
    parseIntLC_digits hA.1 hA.2
  simp [hre, jsLtInt, jsParseInt, pvToString, hpa]

theorem fetchPage_bounded_step (pre sA sB suf : Str)
    (hpre : ∀ c ∈ pre, c ≠ '\x7b') (hsuf : ∀ c ∈ suf, c ≠ '\x7d')
    (hA : digitStr sA) (hB : digitStr sB) (p : Nat) :
    fetchPage (boundedTmpl pre sA sB suf) (PVal.num ((p : Int))) =
      (if digitsVal sB < p then
        { reachedEnd := true, url := pre ++ natRepr p ++ suf,
          requestUrl := pre ++ natRepr p ++ suf,
          pageStr := some (natRepr p), singlePage := false,
          newUrlPage := PVal.num ((p : Int)) }
      else
        { reachedEnd := false, url := pre ++ natRepr p ++ suf,
          requestUrl := stripPostMark (pre ++ natRepr p ++ suf),
          pageStr := some (natRepr p), singlePage := false,
          newUrlPage := PVal.num ((p : Int) + 1) }) := by
  unfold fetchPage boundedTmpl
  rw [regexExecPage_concat _ _ _ hpre hsuf]
  dsimp only
  unfold fetchPageCore
  rw [classifyParams_slash sA sB hA hB]
  have hre : jsGtStr (PVal.num ((p : Int))) sB = decide (digitsVal sB < p) := by
    unfold jsGtStr
    rw [toNumberLC_digits hB.1 hB.2]
    simp only [decide_eq_decide]
    omega
  have hlt : jsLtInt (PVal.num ((p : Int))) 0 = false := by
    unfold jsLtInt
    simp only [decide_eq_false_iff_not]
    omega
  by_cases hpb : digitsVal sB < p
  · simp [hre, hlt, hpb, pvToString, intStr_of_nat]
  · simp [hre, hlt, hpb, pvToString, intStr_of_nat, jsParseInt]

theorem pageTraceGo_bounded (pre sA sB suf : Str)
    (hpre : ∀ c ∈ pre, c ≠ '\x7b') (hsuf : ∀ c ∈ suf, c ≠ '\x7d')
    (hA : digitStr sA) (hB : digitStr sB) :
    ∀ (m p : Nat), p ≤ digitsVal sB + 1 → m = digitsVal sB + 2 - p →
      pageTraceGo (boundedTmpl pre sA sB suf) m (PVal.num ((p : Int))) =
        ((List.range' p (digitsVal sB + 1 - p)).map
            fun k => SourceEvent.call (pre ++ natRepr k ++ suf)) ++
          [SourceEvent.syntheticEnd (pre ++ natRepr (digitsVal sB + 1) ++ suf)] := by
  intro m
  induction m with
  | zero =>
    intro p hp hm
    omega
  | succ m ih =>
    intro p hp hm
    unfold pageTraceGo
    rw [fetchPage_bounded_step pre sA sB suf hpre hsuf hA hB p]
    by_cases hpb : digitsVal sB < p
    · have hpeq : p = digitsVal sB + 1 := by omega
      subst hpeq
      simp only [hpb, if_true]
      simp
    · simp only [hpb, if_false]
      have hcast : ((p : Int) + 1) = (((p + 1 : Nat)) : Int) := by push_cast; ring
      rw [hcast, ih (p + 1) (by omega) (by omega)]
      have hrange : List.range' p (digitsVal sB + 1 - p) =
          p :: List.range' (p + 1) (digitsVal sB + 1 - (p + 1)) := by
        have h1 : digitsVal sB + 1 - p = (digitsVal sB + 1 - (p + 1)) + 1 := by omega
        rw [h1, List.range'_succ]
      rw [hrange]
      simp

/-- C1: for every URL template containing a placeholder `\x7bpage:A/B\x7d`
    with integers `A ≤ B` (written as digit strings), the per-source trace —
    absent earlier zero-record or error termination — consists of transport
    calls for pages `A, A+1, ..., B` in ascending order (exactly `B - A + 1`
    of them) followed by the synthetic empty result for page `B + 1`, which is
    produced without a transport call, before the transport call would have
    been made; no fetch is attempted for a page index greater than `B`. -/
theorem C1_bounded_pagination (pre sA sB suf : Str)
    (h : tmplHyps pre sA sB suf) (hAB : digitsVal sA ≤ digitsVal sB) :
    pageTrace (boundedTmpl pre sA sB suf) (digitsVal sB - digitsVal sA + 2) =
      boundedExpect pre sA suf (digitsVal sA) (digitsVal sB) := by
  obtain ⟨hpre, hsuf, hA, hB⟩ := h
  unfold pageTrace
  rw [show digitsVal sB - digitsVal sA + 2 =
      (digitsVal sB - digitsVal sA + 1) + 1 from rfl]
  unfold pageTraceGo
  rw [fetchPage_bounded_start pre sA sB suf hpre hsuf hA hB]
  have hcast : ((digitsVal sA : Int) + 1) = (((digitsVal sA + 1 : Nat)) : Int) := by
    push_cast; ring
  simp only [hcast]
  rw [pageTraceGo_bounded pre sA sB suf hpre hsuf hA hB
      (digitsVal sB - digitsVal sA + 1) (digitsVal sA + 1) (by omega) (by omega)]
  unfold boundedExpect
  have hr : digitsVal sB + 1 - (digitsVal sA + 1) = digitsVal sB - digitsVal sA := by
    omega
  simp [hr]

/-- Witness for C1 at the template `http://e/p=\x7bpage:2/4\x7dk`. -/
theorem C1_bounded_pagination_witness :
    tmplHyps "http://e/p=".data ['2'] ['4'] ['k'] ∧
      digitsVal ['2'] ≤ digitsVal ['4'] ∧
      pageTrace (boundedTmpl "http://e/p=".data ['2'] ['4'] ['k'])
          (digitsVal ['4'] - digitsVal ['2'] + 2) =
        boundedExpect "http://e/p=".data ['2'] ['k'] (digitsVal ['2'])
          (digitsVal ['4']) :=
  ⟨by decide, by decide,
    C1_bounded_pagination "http://e/p=".data ['2'] ['4'] ['k'] (by decide) (by decide)⟩

/-! # Lemmas about `\x7bpage:A-B\x7d` sources -/

theorem parseIntLC_zero_cons (sA : Str) (hA : digitStr sA) :
    parseIntLC ('0' :: sA) = some ((digitsVal sA : Int)) := by
  rw [parseIntLC_digits (by simp) ?hall, digitsVal_cons_zero]
  case hall =>
    intro a ha
    rcases List.mem_cons.mp ha with rfl | h1
    · decide
    · exact hA.2 a h1

theorem jsParseInt_stridedPage (sA : Str) (v : Nat) :
    jsParseInt (stridedPage sA v) = some ((v : Int)) := by
  unfold stridedPage
  by_cases hc : (leftPadLoose sA && decide (v < 10)) = true
  · simp only [hc, if_true]
    exact parseIntLC_zero_natRepr v
  · simp only [hc, if_false]
    rfl

theorem jsLtInt_stridedPage_zero (sA : Str) (v : Nat) :
    jsLtInt (stridedPage sA v) 0 = false := by
  unfold stridedPage
  by_cases hc : (leftPadLoose sA && decide (v < 10)) = true
  · rw [if_pos hc]
    show (match toNumberLC ('0' :: natRepr v) with
          | some n => decide (n < 0)
          | none => false) = false
    rw [toNumberLC_zero_natRepr v]
    simp only [decide_eq_false_iff_not]
    omega
  · rw [if_neg hc]
    show decide (((v : Nat) : Int) < 0) = false
    simp only [decide_eq_false_iff_not]
    omega

theorem toNumberLC_stridedPageStr (sA : Str) (v : Nat) :
    toNumberLC (stridedPageStr sA v) = some ((v : Int)) := by
  unfold stridedPageStr stridedPage
  by_cases hc : (leftPadLoose sA && decide (v < 10)) = true
  · rw [if_pos hc]
    exact toNumberLC_zero_natRepr v
  · rw [if_neg hc]
    show toNumberLC (intStr ((v : Int))) = some ((v : Int))
    rw [intStr_of_nat, toNumberLC_natRepr]

theorem stridedPageStr_pad (sA : Str) (v : Nat) (hlp : leftPadLoose sA = true)
    (hv : v < 10) : stridedPageStr sA v = '0' :: natRepr v := by
  unfold stridedPageStr stridedPage
  rw [if_pos (by simp [hlp, hv])]
  rfl

theorem leftPadLoose_of_head_zero (sA : Str) (h0 : sA.head? = some '0')
    (hl : 2 ≤ sA.length) : leftPadLoose sA = true := by
  unfold leftPadLoose
  rw [h0]
  have h1 : jsEqNumZero '0' = true := by decide
  simp only [h1, Bool.true_and, decide_eq_true_eq]
  omega

theorem toNumberLC_stridedFirstStr (sA : Str) (hA : digitStr sA) :
    toNumberLC (stridedFirstStr sA) = some ((digitsVal sA : Int)) := by
  unfold stridedFirstStr
  by_cases hc : (leftPadLoose sA && jsLtInt (PVal.str sA) 10) = true
  · rw [if_pos hc]
    rw [toNumberLC_digits (by simp) ?hall, digitsVal_cons_zero]
    case hall =>
      intro a ha
      rcases List.mem_cons.mp ha with rfl | h1
      · decide
      · exact hA.2 a h1
  · rw [if_neg hc]
    exact toNumberLC_digits hA.1 hA.2

theorem fetchPage_strided_start (pre sA sB suf : Str)
    (hpre : ∀ c ∈ pre, c ≠ '\x7b') (hsuf : ∀ c ∈ suf, c ≠ '\x7d')
    (hA : digitStr sA) (hB : digitStr sB) :
    fetchPage (stridedTmpl pre sA sB suf) (PVal.num (-1)) =
      { reachedEnd := false, url := pre ++ stridedFirstStr sA ++ suf,
        requestUrl := stripPostMark (pre ++ stridedFirstStr sA ++ suf),
        pageStr := some (stridedFirstStr sA), singlePage := false,
        newUrlPage := stridedPage sA (digitsVal sA + digitsVal sB) } := by
  have hA0 : jsParseInt (PVal.str ('0' :: sA)) = some ((digitsVal sA : Int)) := by
    unfold jsParseInt
    exact parseIntLC_zero_cons sA hA
  have hA1 : jsParseInt (PVal.str sA) = some ((digitsVal sA : Int)) := by
    unfold jsParseInt
    exact parseIntLC_digits hA.1 hA.2
  have hpb : jsParseInt (PVal.str sB) = some ((digitsVal sB : Int)) := by
    unfold jsParseInt
    exact parseIntLC_digits hB.1 hB.2
  have hnum : ((digitsVal sA : Int) + (digitsVal sB : Int)) =
      (((digitsVal sA + digitsVal sB : Nat)) : Int) := by push_cast; ring
  have hjl : jsLtInt (PVal.num (((digitsVal sA + digitsVal sB : Nat)) : Int)) 10 =
      decide (digitsVal sA + digitsVal sB < 10) := by
    unfold jsLtInt
    simp only [decide_eq_decide]
    omega
  have hsp : (if (leftPadLoose sA && decide (digitsVal sA + digitsVal sB < 10)) = true
      then PVal.str ('0' :: natRepr (digitsVal sA + digitsVal sB))
      else PVal.num (((digitsVal sA + digitsVal sB : Nat)) : Int)) =
      stridedPage sA (digitsVal sA + digitsVal sB) := rfl
  have hfs : (if (leftPadLoose sA && jsLtInt (PVal.str sA) 10) = true
      then '0' :: sA else sA) = stridedFirstStr sA := rfl
  have hlt : jsLtInt (PVal.num (-1)) 0 = true := by decide
  have hpv0 : pvToString (PVal.str ('0' :: sA)) = '0' :: sA := rfl
  have hpv1 : pvToString (PVal.str sA) = sA := rfl
  have hpv2 : pvToString (PVal.num (((digitsVal sA + digitsVal sB : Nat)) : Int)) =
      natRepr (digitsVal sA + digitsVal sB) := by
    show intStr _ = _
    exact intStr_of_nat _
  unfold fetchPage stridedTmpl
  rw [regexExecPage_concat _ _ _ hpre hsuf]
  dsimp only
  unfold fetchPageCore
  rw [classifyParams_dash sA sB hA hB]
  simp only [hlt, if_true, apply_ite pvToString, apply_ite jsParseInt,
    hA0, hA1, ite_self, hpb, hpv0, hpv1, hnum, hjl, hpv2,
    Bool.false_eq_true, if_false, hfs, hsp]

theorem fetchPage_strided_step (pre sA sB suf : Str)
    (hpre : ∀ c ∈ pre, c ≠ '\x7b') (hsuf : ∀ c ∈ suf, c ≠ '\x7d')
    (hA : digitStr sA) (hB : digitStr sB) (v : Nat) :
    fetchPage (stridedTmpl pre sA sB suf) (stridedPage sA v) =
      { reachedEnd := false, url := pre ++ stridedPageStr sA v ++ suf,
        requestUrl := stripPostMark (pre ++ stridedPageStr sA v ++ suf),
        pageStr := some (stridedPageStr sA v), singlePage := false,
        newUrlPage := stridedPage sA (v + digitsVal sB) } := by
  have hpb : jsParseInt (PVal.str sB) = some ((digitsVal sB : Int)) := by
    unfold jsParseInt
    exact parseIntLC_digits hB.1 hB.2
  have hlt := jsLtInt_stridedPage_zero sA v
  have hpi := jsParseInt_stridedPage sA v
  have hnum : ((v : Int) + (digitsVal sB : Int)) =
      (((v + digitsVal sB : Nat)) : Int) := by push_cast; ring
  have hjl : jsLtInt (PVal.num (((v + digitsVal sB : Nat)) : Int)) 10 =
      decide (v + digitsVal sB < 10) := by
    unfold jsLtInt
    simp only [decide_eq_decide]
    omega
  have hsp : (if (leftPadLoose sA && decide (v + digitsVal sB < 10)) = true
      then PVal.str ('0' :: natRepr (v + digitsVal sB))
      else PVal.num (((v + digitsVal sB : Nat)) : Int)) =
      stridedPage sA (v + digitsVal sB) := rfl
  have hstr : pvToString (stridedPage sA v) = stridedPageStr sA v := rfl
  have hpv2 : pvToString (PVal.num (((v + digitsVal sB : Nat)) : Int)) =
      natRepr (v + digitsVal sB) := by
    show intStr _ = _
    exact intStr_of_nat _
  unfold fetchPage stridedTmpl
  rw [regexExecPage_concat _ _ _ hpre hsuf]
  dsimp only
  unfold fetchPageCore
  rw [classifyParams_dash sA sB hA hB]
  simp only [hlt, Bool.false_eq_true, if_false, hpi, hpb, hnum, hjl,
    hpv2, hstr, hsp]

theorem pageStrsGo_strided (pre sA sB suf : Str)
    (hpre : ∀ c ∈ pre, c ≠ '\x7b') (hsuf : ∀ c ∈ suf, c ≠ '\x7d')
    (hA : digitStr sA) (hB : digitStr sB) :
    ∀ (m v : Nat),
      pageStrsGo (stridedTmpl pre sA sB suf) m (stridedPage sA v) =
        (List.range m).map (fun j => stridedPageStr sA (v + j * digitsVal sB)) := by
  intro m
  induction m with
  | zero => intro v; rfl
  | succ m ih =>
    intro v
    unfold pageStrsGo
    rw [fetchPage_strided_step pre sA sB suf hpre hsuf hA hB v]
    simp only [Bool.false_eq_true, if_false]
    rw [ih (v + digitsVal sB)]
    rw [List.range_succ_eq_map]
    simp only [List.map_cons, List.map_map, Nat.zero_mul, Nat.add_zero,
      Option.getD_some]
    congr 1
    apply List.map_congr_left
    intro j hj
    simp only [Function.comp_apply]
    congr 1
    rw [Nat.succ_eq_add_one]
    ring

/-- C2: for every URL template containing a placeholder `\x7bpage:A-B\x7d`
    (with `A`, `B` written as digit strings), the page value substituted into
    the `N`-th resolved URL equals `A + (N-1)*B` for every `N ≥ 1`; and when
    `A` is written zero-padded (leading `'0'`, at least two digits), every
    subsequent page number below 10 is substituted in its zero-padded width-2
    string form `'0' :: digit`. -/
theorem C2_strided_pagination (pre sA sB suf : Str) (h : tmplHyps pre sA sB suf)
    (N fuel : Nat) (hN : 1 ≤ N) (hNf : N ≤ fuel) :
    pageValAt (stridedTmpl pre sA sB suf) fuel (N - 1) =
      some (((digitsVal sA + (N - 1) * digitsVal sB : Nat)) : Int) ∧
    (sA.head? = some '0' → 2 ≤ sA.length → 2 ≤ N →
      digitsVal sA + (N - 1) * digitsVal sB < 10 →
      (pageStrs (stridedTmpl pre sA sB suf) fuel).get? (N - 1) =
        some ('0' :: natRepr (digitsVal sA + (N - 1) * digitsVal sB))) := by
  obtain ⟨hpre, hsuf, hA, hB⟩ := h
  obtain ⟨f, rfl⟩ : ∃ f, fuel = f + 1 := ⟨fuel - 1, by omega⟩
  have hlist : pageStrs (stridedTmpl pre sA sB suf) (f + 1) =
      stridedFirstStr sA ::
        (List.range f).map
          (fun j => stridedPageStr sA (digitsVal sA + digitsVal sB + j * digitsVal sB)) := by
    unfold pageStrs pageStrsGo
    rw [fetchPage_strided_start pre sA sB suf hpre hsuf hA hB]
    simp only [Bool.false_eq_true, if_false, Option.getD_some]
    rw [pageStrsGo_strided pre sA sB suf hpre hsuf hA hB f
        (digitsVal sA + digitsVal sB)]
  rcases Nat.lt_or_ge N 2 with h2 | h2
  · have hN1 : N = 1 := by omega
    subst hN1
    refine ⟨?_, ?_⟩
    · unfold pageValAt
      rw [hlist]
      show (some (stridedFirstStr sA)).bind toNumberLC = _
      simp [toNumberLC_stridedFirstStr sA hA]
    · intro h0 hlen hN2 hlt
      omega
  · have hidx : N - 1 = (N - 2) + 1 := by omega
    have hjm : N - 2 < f := by omega
    have hval : digitsVal sA + digitsVal sB + (N - 2) * digitsVal sB =
        digitsVal sA + (N - 1) * digitsVal sB := by
      have h3 : N - 1 = (N - 2) + 1 := by omega
      rw [h3, Nat.succ_mul]
      ring
    have hget : (pageStrs (stridedTmpl pre sA sB suf) (f + 1)).get? (N - 1) =
        some (stridedPageStr sA (digitsVal sA + (N - 1) * digitsVal sB)) := by
      rw [hlist, hidx]
      rw [List.get?_cons_succ, List.get?_map, List.get?_range hjm]
      show some (stridedPageStr sA (digitsVal sA + digitsVal sB + (N - 2) * digitsVal sB)) = _
      rw [hval, ← hidx]
    refine ⟨?_, ?_⟩
    · unfold pageValAt
      rw [hget]
      simp [toNumberLC_stridedPageStr]
    · intro h0 hlen hN2 hlt
      rw [hget]
      rw [stridedPageStr_pad sA _ (leftPadLoose_of_head_zero sA h0 hlen) hlt]

/-- Witness for C2 at the template `x\x7bpage:01-3\x7dy`, `N = 2`: the second
    resolved page has value `1 + 1*3 = 4` and is substituted as `04`. -/
theorem C2_strided_pagination_witness :
    tmplHyps ['x'] ['0', '1'] ['3'] ['y'] ∧ 1 ≤ 2 ∧ (2 : Nat) ≤ 2 ∧
      (pageValAt (stridedTmpl ['x'] ['0', '1'] ['3'] ['y']) 2 (2 - 1) =
        some (((digitsVal ['0', '1'] + (2 - 1) * digitsVal ['3'] : Nat)) : Int) ∧
      (['0', '1'].head? = some '0' → 2 ≤ ['0', '1'].length → 2 ≤ 2 →
        digitsVal ['0', '1'] + (2 - 1) * digitsVal ['3'] < 10 →
        (pageStrs (stridedTmpl ['x'] ['0', '1'] ['3'] ['y']) 2).get? (2 - 1) =
          some ('0' :: natRepr (digitsVal ['0', '1'] + (2 - 1) * digitsVal ['3'])))) :=
  ⟨by decide, by decide, by decide,
    C2_strided_pagination ['x'] ['0', '1'] ['3'] ['y'] (by decide) 2 2
      (by decide) (by decide)⟩

/-! # Orchestrator claims -/

/-- C4: for every fetch that ends in a transport error, a timeout (which
    surfaces as a transport error in the callback), or a non-200 status, the
    handler abandons the remaining pages of the current source and advances to
    the next source in list order (resetting the page state to the sentinel),
    invoking the store flush (`save`) only when no sources remain; the failure
    never throws (`Except.ok`) and the accumulated records are untouched. -/
theorem C4_transport_failure (urls : List Str) (st : OState) (err : Bool)
    (status : Option Int) (sp : Bool) (doc : FetchedDoc)
    (hfail : err = true ∨ status ≠ some 200) :
    mainStep urls st err status sp doc =
      Except.ok (if hasNextUrl urls st.urlIndex
        then StepOut.next ⟨st.urlIndex + 1, PVal.num (-1), st.proxies⟩
        else StepOut.save st) := by
  unfold mainStep
  have hcond : ¬ (err = false ∧ status = some 200) := by
    rcases hfail with h | h
    · intro hc
      rw [h] at hc
      exact Bool.true_eq_false.mp hc.1
    · intro hc
      exact h hc.2
  rw [if_neg hcond]
  rcases Bool.eq_false_or_eq_true (hasNextUrl urls st.urlIndex) with hnx | hnx <;>
    simp [hnx]

/-- Witness for C4: a non-200 status on the last source goes to `save`. -/
theorem C4_transport_failure_witness :
    ((true : Bool) = true ∨ (some (404 : Int)) ≠ some 200) ∧
      mainStep [['u']] ⟨0, PVal.num 3, [['p']]⟩ true (some 404) false
          FetchedDoc.unmatched =
        Except.ok (if hasNextUrl [['u']] (0 : Nat)
          then StepOut.next ⟨0 + 1, PVal.num (-1), [['p']]⟩
          else StepOut.save ⟨0, PVal.num 3, [['p']]⟩) :=
  ⟨Or.inl rfl,
    C4_transport_failure [['u']] ⟨0, PVal.num 3, [['p']]⟩ true (some 404) false
      FetchedDoc.unmatched (Or.inl rfl)⟩

/-- C5: a template with no page placeholder resolves with `singlePage = true`
    and performs its one transport call (`reachedEnd = false`), and the
    handler, on any `singlePage` result of a successful fetch, moves to the
    next source (or to `save` when none remain) regardless of how many records
    were extracted — it never issues another fetch of the same source index,
    so the URL is never refetched within a cycle. -/
theorem C5_single_shot (tmpl : Str) (p : PVal) (hnp : regexExecPage tmpl = none)
    (urls : List Str) (st : OState) (doc : FetchedDoc) (l : List Str)
    (hex : extractProxies doc = Except.ok l) :
    ((fetchPage tmpl p).singlePage = true ∧
      (fetchPage tmpl p).reachedEnd = false ∧
      (fetchPage tmpl p).requestUrl = stripPostMark tmpl) ∧
    mainStep urls st false (some 200) true doc =
      Except.ok (if hasNextUrl urls st.urlIndex
        then StepOut.next ⟨st.urlIndex + 1, PVal.num (-1), st.proxies ++ l⟩
        else StepOut.save ⟨st.urlIndex, st.urlPage, st.proxies ++ l⟩) := by
  constructor
  · unfold fetchPage
    rw [hnp]
    exact ⟨rfl, rfl, rfl⟩
  · unfold mainStep
    rw [if_pos ⟨rfl, rfl⟩, hex]
    cases l with
    | nil =>
      rcases Bool.eq_false_or_eq_true (hasNextUrl urls st.urlIndex) with hnx | hnx <;>
        simp [hnx]
    | cons a t =>
      rcases Bool.eq_false_or_eq_true (hasNextUrl urls st.urlIndex) with hnx | hnx <;>
        simp [hnx]

/-- Witness for C5: the placeholder-free template `nope` is single-shot, and a
    two-record result on the last source goes to `save` with the records
    appended. -/
theorem C5_single_shot_witness :
    regexExecPage "nope".data = none ∧
      extractProxies (FetchedDoc.incloak [(['1'], ['2'])]) =
        Except.ok [['1', ':', '2']] ∧
      (((fetchPage "nope".data (PVal.num (-1))).singlePage = true ∧
        (fetchPage "nope".data (PVal.num (-1))).reachedEnd = false ∧
        (fetchPage "nope".data (PVal.num (-1))).requestUrl =
          stripPostMark "nope".data) ∧
      mainStep [['u']] ⟨0, PVal.num 7, []⟩ false (some 200) true
          (FetchedDoc.incloak [(['1'], ['2'])]) =
        Except.ok (if hasNextUrl [['u']] (0 : Nat)
          then StepOut.next ⟨0 + 1, PVal.num (-1), [] ++ [['1', ':', '2']]⟩
          else StepOut.save ⟨0, PVal.num 7, [] ++ [['1', ':', '2']]⟩)) :=
  ⟨rfl, rfl,
    C5_single_shot "nope".data (PVal.num (-1)) rfl [['u']] ⟨0, PVal.num 7, []⟩
      (FetchedDoc.incloak [(['1'], ['2'])]) [['1', ':', '2']] rfl⟩

/-- C10 counterexample: the template `a\x7bpagex\x7db` has a malformed
    placeholder token (`\x7bpagex\x7d` is none of the four recognised forms),
    yet the resolver does not treat it as "no placeholder": the result is not
    flagged single-shot, and on a successful fetch with records the handler
    fetches the same source again (same index) instead of advancing — so the
    source is not single-shot, refuting the claim at this input. -/
theorem C10_counterexample :
    (fetchPage "a\x7bpagex\x7db".data (PVal.num (-1))).singlePage = false ∧
      mainStep [['u'], ['w']] ⟨0, PVal.num 2, []⟩ false (some 200) false
          (FetchedDoc.incloak [(['1'], ['2'])]) =
        Except.ok (StepOut.next ⟨0, PVal.num 2, [['1', ':', '2']]⟩) :=
  ⟨rfl, rfl⟩

/-- C10 amended: a `\x7bpage...\x7d` token with unrecognised parameter syntax
    still matches the placeholder regex and is treated as a paginated source
    (never single-shot, never raising): a token without a colon falls back to
    the default start page 1 and increment 1.  Only a template in which the
    regex matches nothing at all is single-shot, and then exactly one fetch of
    the unmodified URL is performed before the source is exhausted. -/
theorem C10_amended :
    (∀ (tmpl : Str) (p : PVal), regexExecPage tmpl = none →
      fetchPage tmpl p =
        { reachedEnd := false, url := tmpl, requestUrl := stripPostMark tmpl,
          pageStr := none, singlePage := true, newUrlPage := PVal.num 2 }) ∧
    fetchPage "a\x7bpagex\x7db".data (PVal.num (-1)) =
      { reachedEnd := false, url := "a1b".data, requestUrl := "a1b".data,
        pageStr := some ['1'], singlePage := false, newUrlPage := PVal.num 2 } := by
  constructor
  · intro tmpl p hnp
    unfold fetchPage
    rw [hnp]
  · rfl

/-- Witness for C10 amended, at the placeholder-free template `nope`. -/
theorem C10_amended_witness :
    regexExecPage "nope".data = none ∧
      fetchPage "nope".data PVal.nan =
        { reachedEnd := false, url := "nope".data,
          requestUrl := stripPostMark "nope".data, pageStr := none,
          singlePage := true, newUrlPage := PVal.num 2 } :=
  ⟨rfl, C10_amended.1 "nope".data PVal.nan rfl⟩

/-- C9 (code bug): the scheduled retry re-entry resets the source index and
    the accumulator and leaves the configuration untouched, but does NOT reset
    the pagination state: `_this.urlPage = -1` assigns a fresh property,
    leaving `_urlPage` at its stale value (here 2).  Consequently the next
    cycle's first paginated source resumes from the stale page (substituting
    `2`), whereas from the sentinel `-1` it would start at its template's
    start page (substituting `1`). -/
theorem C9_retry_reset_bug :
    retryReset ⟨[['u'], ['w']], ['o'], some 120, 1, PVal.num 2, [['p']]⟩ =
      ⟨[['u'], ['w']], ['o'], some 120, 0, PVal.num 2, []⟩ ∧
    (fetchPage "h\x7bpage\x7d".data (PVal.num 2)).pageStr = some ['2'] ∧
    (fetchPage "h\x7bpage\x7d".data (PVal.num (-1))).pageStr = some ['1'] :=
  ⟨rfl, rfl, rfl⟩

/-! # Lemmas about the record store -/

theorem mem_jsSetDedupGo (seen l : List Str) (x : Str) :
    x ∈ jsSetDedupGo seen l ↔ x ∈ l ∧ x ∉ seen := by
  induction l generalizing seen with
  | nil => simp [jsSetDedupGo]
  | cons a t ih =>
    unfold jsSetDedupGo
    by_cases ha : a ∈ seen
    · rw [if_pos ha, ih seen]
      constructor
      · rintro ⟨hx, hn⟩
        exact ⟨List.mem_cons_of_mem _ hx, hn⟩
      · rintro ⟨hx, hn⟩
        rcases List.mem_cons.mp hx with rfl | hx2
        · exact absurd ha hn
        · exact ⟨hx2, hn⟩
    · rw [if_neg ha]
      constructor
      · intro hx
        rcases List.mem_cons.mp hx with rfl | hx2
        · exact ⟨List.mem_cons_self _ _, ha⟩
        · obtain ⟨h1, h2⟩ := (ih (a :: seen)).mp hx2
          exact ⟨List.mem_cons_of_mem _ h1,
            fun hs => h2 (List.mem_cons_of_mem _ hs)⟩
      · rintro ⟨hx, hn⟩
        rcases List.mem_cons.mp hx with rfl | hx2
        · exact List.mem_cons_self _ _
        · by_cases hxa : x = a
          · subst hxa
            exact List.mem_cons_self _ _
          · exact List.mem_cons_of_mem _
              ((ih (a :: seen)).mpr
                ⟨hx2, fun hs => (List.mem_cons.mp hs).elim hxa hn⟩)

theorem nodup_jsSetDedupGo (seen l : List Str) : (jsSetDedupGo seen l).Nodup := by
  induction l generalizing seen with
  | nil => simp [jsSetDedupGo]
  | cons a t ih =>
    unfold jsSetDedupGo
    by_cases ha : a ∈ seen
    · rw [if_pos ha]
      exact ih seen
    · rw [if_neg ha]
      refine List.nodup_cons.mpr ⟨?_, ih (a :: seen)⟩
      intro hmem
      exact ((mem_jsSetDedupGo _ _ _).mp hmem).2 (List.mem_cons_self _ _)

theorem sublist_jsSetDedupGo (seen l : List Str) :
    List.Sublist (jsSetDedupGo seen l) l := by
  induction l generalizing seen with
  | nil => simp [jsSetDedupGo]
  | cons a t ih =>
    unfold jsSetDedupGo
    by_cases ha : a ∈ seen
    · rw [if_pos ha]
      exact List.Sublist.cons a (ih seen)
    · rw [if_neg ha]
      exact List.Sublist.cons₂ a (ih (a :: seen))

theorem jsSetDedupGo_eq_self (seen l : List Str) (hn : l.Nodup)
    (hd : ∀ x ∈ l, x ∉ seen) : jsSetDedupGo seen l = l := by
  induction l generalizing seen with
  | nil => rfl
  | cons a t ih =>
    unfold jsSetDedupGo
    rw [if_neg (hd a (List.mem_cons_self _ _))]
    congr 1
    apply ih (a :: seen) (List.nodup_cons.mp hn).2
    intro x hx hmem
    rcases List.mem_cons.mp hmem with rfl | hs
    · exact (List.nodup_cons.mp hn).1 hx
    · exact hd x (List.mem_cons_of_mem _ hx) hs

theorem jsSetDedupGo_all_seen (seen l : List Str) (h : ∀ x ∈ l, x ∈ seen) :
    jsSetDedupGo seen l = [] := by
  induction l with
  | nil => rfl
  | cons a t ih =>
    unfold jsSetDedupGo
    rw [if_pos (h a (List.mem_cons_self _ _))]
    exact ih (fun x hx => h x (List.mem_cons_of_mem _ hx))

theorem jsSetDedupGo_append (seen l1 l2 : List Str)
    (h : ∀ x ∈ l2, x ∈ l1 ∨ x ∈ seen) :
    jsSetDedupGo seen (l1 ++ l2) = jsSetDedupGo seen l1 := by
  induction l1 generalizing seen with
  | nil =>
    simp only [List.nil_append]
    have h2 : ∀ x ∈ l2, x ∈ seen := by
      intro x hx
      rcases h x hx with h1 | h1
      · simp at h1
      · exact h1
    rw [jsSetDedupGo_all_seen seen l2 h2]
    rfl
  | cons a t ih =>
    rw [List.cons_append]
    unfold jsSetDedupGo
    by_cases ha : a ∈ seen
    · rw [if_pos ha, if_pos ha]
      apply ih seen
      intro x hx
      rcases h x hx with h1 | h1
      · rcases List.mem_cons.mp h1 with rfl | h3
        · exact Or.inr ha
        · exact Or.inl h3
      · exact Or.inr h1
    · rw [if_neg ha, if_neg ha]
      congr 1
      apply ih (a :: seen)
      intro x hx
      rcases h x hx with h1 | h1
      · rcases List.mem_cons.mp h1 with rfl | h3
        · exact Or.inr (List.mem_cons_self _ _)
        · exact Or.inl h3
      · exact Or.inr (List.mem_cons_of_mem _ h1)

theorem mem_jsSetDedup (l : List Str) (x : Str) : x ∈ jsSetDedup l ↔ x ∈ l := by
  unfold jsSetDedup
  rw [mem_jsSetDedupGo]
  simp

theorem nodup_jsSetDedup (l : List Str) : (jsSetDedup l).Nodup :=
  nodup_jsSetDedupGo [] l

theorem sublist_jsSetDedup (l : List Str) : List.Sublist (jsSetDedup l) l :=
  sublist_jsSetDedupGo [] l

theorem jsSetDedup_eq_self (l : List Str) (hn : l.Nodup) : jsSetDedup l = l :=
  jsSetDedupGo_eq_self [] l hn (by simp)

theorem jsSetDedup_append_self (l : List Str) :
    jsSetDedup (l ++ l) = jsSetDedup l :=
  jsSetDedupGo_append [] l l (fun _ hx => Or.inl hx)

theorem jsSetDedup_ne_nil (l : List Str) (hl : l ≠ []) : jsSetDedup l ≠ [] := by
  obtain ⟨a, t, rfl⟩ := List.exists_cons_of_ne_nil hl
  intro hc
  have : a ∈ jsSetDedup (a :: t) := (mem_jsSetDedup _ _).mpr (List.mem_cons_self _ _)
  rw [hc] at this
  simp at this

/-- C6 counterexample: with no prior output file and the accumulator holding
    the same record twice, `saveProxies` writes the records as-is — the
    written file contains two equal lines, refuting the claim that the written
    file never contains two equal lines whether or not the file existed. -/
theorem C6_counterexample :
    ¬ (splitChar '\n' (saveProxies [['a'], ['a']] false []).written).Nodup := by
  decide

/-- C6 amended: when the output file exists, the written file is the
    newline-join of the stable first-seen deduplication of the new records
    followed by the prior file's records — its lines are exactly
    `jsSetDedup (new ++ prior)`, contain no two equal lines, and keep
    first-seen order (the deduplicated list is a sublist of the concatenation
    with the same members).  When the file does not exist, the new records are
    written as-is, with no deduplication at all. -/
theorem C6_amended :
    (∀ (proxies : List Str) (prior : Str), (∀ r ∈ proxies, '\n' ∉ r) →
      (splitChar '\n' (saveProxies proxies true prior).written =
          jsSetDedup (proxies ++ splitChar '\n' prior) ∧
        (splitChar '\n' (saveProxies proxies true prior).written).Nodup ∧
        List.Sublist (jsSetDedup (proxies ++ splitChar '\n' prior))
          (proxies ++ splitChar '\n' prior) ∧
        (∀ x, x ∈ (saveProxies proxies true prior).finalList ↔
          x ∈ proxies ++ splitChar '\n' prior))) ∧
    (∀ proxies : List Str,
      (saveProxies proxies false []).written = joinChar '\n' proxies) := by
  constructor
  · intro proxies prior hnl
    have hfree : ∀ x ∈ jsSetDedup (proxies ++ splitChar '\n' prior),
        ∀ a ∈ x, a ≠ '\n' := by
      intro x hx a ha
      rcases List.mem_append.mp ((mem_jsSetDedup _ _).mp hx) with h1 | h1
      · intro heq
        subst heq
        exact hnl x h1 ha
      · exact splitChar_no_sep '\n' prior x h1 a ha
    have hsplit : splitChar '\n' (saveProxies proxies true prior).written =
        jsSetDedup (proxies ++ splitChar '\n' prior) := by
      show splitChar '\n'
          (joinChar '\n' (jsSetDedup (proxies ++ splitChar '\n' prior))) = _
      apply splitChar_join '\n' _
        (jsSetDedup_ne_nil _ (by
          intro hc
          exact splitChar_ne_nil '\n' prior (List.append_eq_nil.mp hc).2))
        hfree
    refine ⟨hsplit, ?_, sublist_jsSetDedup _, ?_⟩
    · rw [hsplit]
      exact nodup_jsSetDedup _
    · intro x
      show x ∈ jsSetDedup (proxies ++ splitChar '\n' prior) ↔ _
      exact mem_jsSetDedup _ _
  · intro proxies
    rfl

/-- Witness for C6 amended: one new record merged over a one-line prior
    file. -/
theorem C6_amended_witness :
    (∀ r ∈ [['a'], ['b']], '\n' ∉ r) ∧
      splitChar '\n' (saveProxies [['a'], ['b']] true ['b']).written =
        jsSetDedup ([['a'], ['b']] ++ splitChar '\n' ['b']) ∧
      (splitChar '\n' (saveProxies [['a'], ['b']] true ['b']).written).Nodup :=
  ⟨by decide, (C6_amended.1 [['a'], ['b']] ['b'] (by decide)).1,
    (C6_amended.1 [['a'], ['b']] ['b'] (by decide)).2.1⟩

/-- C7: flushing the same duplicate-free, newline-free record set twice in
    succession — the second flush reading back the file written by the first —
    yields a store whose lines are the same set as after the first flush, and
    the duplicate count reported on the second flush equals the number of
    records the first flush stored. -/
theorem C7_flush_idempotent (P : List Str) (hnl : ∀ r ∈ P, '\n' ∉ r)
    (hnd : P.Nodup) :
    (∀ x, x ∈ splitChar '\n'
          (saveProxies P true (saveProxies P false []).written).written ↔
        x ∈ splitChar '\n' (saveProxies P false []).written) ∧
    (saveProxies P true (saveProxies P false []).written).dupes = P.length := by
  cases P with
  | nil => exact ⟨fun x => Iff.rfl, rfl⟩
  | cons a t =>
    have hfree : ∀ x ∈ a :: t, ∀ b ∈ x, b ≠ '\n' := by
      intro x hx b hb heq
      subst heq
      exact hnl x hx hb
    have horig : splitChar '\n' (joinChar '\n' (a :: t)) = a :: t :=
      splitChar_join '\n' (a :: t) (by simp) hfree
    have hded : jsSetDedup ((a :: t) ++ (a :: t)) = a :: t := by
      rw [jsSetDedup_append_self, jsSetDedup_eq_self _ hnd]
    have hw1 : (saveProxies (a :: t) false []).written = joinChar '\n' (a :: t) := rfl
    constructor
    · intro x
      show x ∈ splitChar '\n' (joinChar '\n' (jsSetDedup
          ((a :: t) ++ splitChar '\n' (joinChar '\n' (a :: t))))) ↔
        x ∈ splitChar '\n' (joinChar '\n' (a :: t))
      rw [horig, hded, horig]
    · show ((a :: t) ++ splitChar '\n' (joinChar '\n' (a :: t))).length -
        (jsSetDedup ((a :: t) ++ splitChar '\n' (joinChar '\n' (a :: t)))).length =
          (a :: t).length
      rw [horig, hded]
      simp

/-- Witness for C7 at the two-record set `a`, `b`. -/
theorem C7_flush_idempotent_witness :
    (∀ r ∈ [['a'], ['b']], '\n' ∉ r) ∧ ([['a'], ['b']] : List Str).Nodup ∧
      (saveProxies [['a'], ['b']]
          true (saveProxies [['a'], ['b']] false []).written).dupes =
        ([['a'], ['b']] : List Str).length :=
  ⟨by decide, by decide,
    (C7_flush_idempotent [['a'], ['b']] (by decide) (by decide)).2⟩

/-! # Lemmas about the cool-proxy rot13/base64 pipeline -/

theorem jsRot13_invol (n : Nat) : jsRot13 (jsRot13 n) = n := by
  unfold jsRot13 jsToLowerCode
  split_ifs <;> omega

theorem b64Val_b64Char : ∀ v : Nat, v < 64 → b64Val (b64Char v) = some v := by
  decide

theorem b64Char_ne_61 : ∀ v : Nat, v < 64 → b64Char v ≠ 61 := by
  decide

theorem b64_roundtrip : ∀ s : List Nat, (∀ x ∈ s, x < 256) →
    b64Decode (b64Encode s) = s
  | [] => fun _ => rfl
  | [a] => fun h => by
    have ha : a < 256 := h a (List.mem_singleton.mpr rfl)
    show b64Decode [b64Char (a / 4), b64Char (a % 4 * 16), 61, 61] = [a]
    unfold b64Decode
    rw [b64Val_b64Char (a / 4) (by omega), b64Val_b64Char (a % 4 * 16) (by omega)]
    dsimp only
    rw [if_pos rfl]
    have hx : a / 4 * 4 + a % 4 * 16 / 16 = a := by omega
    rw [hx]
    rfl
  | [a, b] => fun h => by
    have ha : a < 256 := h a (by simp)
    have hb : b < 256 := h b (by simp)
    show b64Decode [b64Char (a / 4), b64Char (a % 4 * 16 + b / 16),
      b64Char (b % 16 * 4), 61] = [a, b]
    unfold b64Decode
    rw [b64Val_b64Char (a / 4) (by omega),
      b64Val_b64Char (a % 4 * 16 + b / 16) (by omega)]
    dsimp only
    rw [if_neg (b64Char_ne_61 (b % 16 * 4) (by omega)),
      b64Val_b64Char (b % 16 * 4) (by omega)]
    dsimp only
    rw [if_pos rfl]
    have hx : a / 4 * 4 + (a % 4 * 16 + b / 16) / 16 = a := by omega
    have hy : (a % 4 * 16 + b / 16) % 16 * 16 + b % 16 * 4 / 4 = b := by omega
    rw [hx, hy]
    rfl
  | a :: b :: c :: d :: rest => fun h => by
    have ha : a < 256 := h a (by simp)
    have hb : b < 256 := h b (by simp)
    have hc : c < 256 := h c (by simp)
    have ih := b64_roundtrip (d :: rest) (fun x hx => h x (by simp [hx]))
    show b64Decode (b64Char (a / 4) :: b64Char (a % 4 * 16 + b / 16) ::
      b64Char (b % 16 * 4 + c / 64) :: b64Char (c % 64) ::
      b64Encode (d :: rest)) = a :: b :: c :: d :: rest
    unfold b64Decode
    rw [b64Val_b64Char (a / 4) (by omega),
      b64Val_b64Char (a % 4 * 16 + b / 16) (by omega)]
    dsimp only
    rw [if_neg (b64Char_ne_61 (b % 16 * 4 + c / 64) (by omega)),
      b64Val_b64Char (b % 16 * 4 + c / 64) (by omega)]
    dsimp only
    rw [if_neg (b64Char_ne_61 (c % 64) (by omega)),
      b64Val_b64Char (c % 64) (by omega)]
    dsimp only
    rw [ih]
    have hx : a / 4 * 4 + (a % 4 * 16 + b / 16) / 16 = a := by omega
    have hy : (a % 4 * 16 + b / 16) % 16 * 16 + (b % 16 * 4 + c / 64) / 4 = b := by
      omega
    have hz : (b % 16 * 4 + c / 64) % 4 * 64 + c % 64 = c := by omega
    rw [hx, hy, hz]
  | [a, b, c] => fun h => by
    have ha : a < 256 := h a (by simp)
    have hb : b < 256 := h b (by simp)
    have hc : c < 256 := h c (by simp)
    show b64Decode (b64Char (a / 4) :: b64Char (a % 4 * 16 + b / 16) ::
      b64Char (b % 16 * 4 + c / 64) :: b64Char (c % 64) :: b64Encode []) =
        [a, b, c]
    unfold b64Decode
    rw [b64Val_b64Char (a / 4) (by omega),
      b64Val_b64Char (a % 4 * 16 + b / 16) (by omega)]
    dsimp only
    rw [if_neg (b64Char_ne_61 (b % 16 * 4 + c / 64) (by omega)),
      b64Val_b64Char (b % 16 * 4 + c / 64) (by omega)]
    dsimp only
    rw [if_neg (b64Char_ne_61 (c % 64) (by omega)),
      b64Val_b64Char (c % 64) (by omega)]
    dsimp only
    have hx : a / 4 * 4 + (a % 4 * 16 + b / 16) / 16 = a := by omega
    have hy : (a % 4 * 16 + b / 16) % 16 * 16 + (b % 16 * 4 + c / 64) / 4 = b := by
      omega
    have hz : (b % 16 * 4 + c / 64) % 4 * 64 + c % 64 = c := by omega
    rw [hx, hy, hz]
    rfl

/-- C8: for every byte string `s`, encoding `s` with base64 and then applying
    rot13 to the ASCII letters of the result (digits and other characters
    untouched) produces a payload from which the cool-proxy adapter's decode
    pipeline — rot13 on letters, then base64-decode — recovers `s` exactly:
    `coolProxyDecode` is a left inverse of `obfuscatePayload`. -/
theorem C8_rot13_base64_roundtrip (s : List Nat) (h : ∀ x ∈ s, x < 256) :
    coolProxyDecode (obfuscatePayload s) = s := by
  unfold coolProxyDecode obfuscatePayload rot13All
  rw [List.map_map]
  rw [show (jsRot13 ∘ jsRot13) = id from funext jsRot13_invol, List.map_id]
  exact b64_roundtrip s h

/-- Witness for C8 at the record string `1.2.3.4:80`. -/
theorem C8_rot13_base64_roundtrip_witness :
    (∀ x ∈ "1.2.3.4:80".data.map Char.toNat, x < 256) ∧
      coolProxyDecode (obfuscatePayload ("1.2.3.4:80".data.map Char.toNat)) =
        "1.2.3.4:80".data.map Char.toNat :=
  ⟨by decide, C8_rot13_base64_roundtrip _ (by decide)⟩

/-! # Lemmas about extraction safety -/

theorem hmaRow_ok (r : HmaRow) (hsr : styleRules r.styleText ≠ [])
    (hsp : r.spanHtml ≠ none) : ∃ ip, hmaRow r = Except.ok ip := by
  unfold hmaRow
  cases hst : styleRules r.styleText with
  | nil => exact absurd hst hsr
  | cons q qs =>
    cases hspv : r.spanHtml with
    | none => exact absurd hspv hsp
    | some sp =>
      exact ⟨_, rfl⟩

theorem hmaExtract_isOk (rows : List HmaRow)
    (h : ∀ r ∈ rows, styleRules r.styleText ≠ [] ∧ r.spanHtml ≠ none) :
    isOkE (hmaExtract rows) = true := by
  induction rows with
  | nil => rfl
  | cons r rest ih =>
    obtain ⟨hsr, hsp⟩ := h r (List.mem_cons_self _ _)
    obtain ⟨ip, hip⟩ := hmaRow_ok r hsr hsp
    have ih2 := ih (fun q hq => h q (List.mem_cons_of_mem _ hq))
    unfold hmaExtract
    rw [hip]
    cases hrest : hmaExtract rest with
    | error e =>
      rw [hrest] at ih2
      exact absurd ih2 (by simp [isOkE])
    | ok l => rfl

/-- C3 counterexample: a hidemyass row whose style block contains no
    class/display rules makes `style.match(...)` return `null`, and the
    subsequent `styles.length` read throws a TypeError that propagates out of
    `extractProxies` — extraction does not return a list for this fetched
    document, refuting the claim as stated at this concrete input. -/
theorem C3_counterexample :
    extractProxies (FetchedDoc.hidemyass [⟨[], ['8', '0'], some []⟩]) =
      Except.error "TypeError: Cannot read property length of null" := rfl

/-- C3 amended: extraction can throw.  The incloak adapter returns a (possibly
    empty) record list for every document; the hidemyass adapter returns a
    list whenever every row's style block yields at least one class/display
    rule and the span cell is present, but a row violating either condition
    throws (see the counterexample); and the nordvpn adapter propagates the
    `JSON.parse` SyntaxError for a body that is not valid JSON. -/
theorem C3_amended :
    (∀ rows : List (Str × Str),
      extractProxies (FetchedDoc.incloak rows) =
        Except.ok (rows.map (fun rc => rc.1 ++ ':' :: rc.2))) ∧
    (∀ rows : List HmaRow,
      (∀ r ∈ rows, styleRules r.styleText ≠ [] ∧ r.spanHtml ≠ none) →
      isOkE (extractProxies (FetchedDoc.hidemyass rows)) = true) ∧
    extractProxies (FetchedDoc.nordvpn none) =
      Except.error "SyntaxError: Unexpected token in JSON" := by
  refine ⟨fun rows => rfl, ?_, rfl⟩
  intro rows hrows
  exact hmaExtract_isOk rows hrows

/-- Witness for C3 amended: a hidemyass row with one real style rule and a
    present span cell extracts without throwing. -/
theorem C3_amended_witness :
    (∀ r ∈ [(⟨".a\x7bdisplay:inline\x7d".data, ['8', '0'],
        some "19<span class=\"a\">2</span>.1".data⟩ : HmaRow)],
      styleRules r.styleText ≠ [] ∧ r.spanHtml ≠ none) ∧
      isOkE (extractProxies (FetchedDoc.hidemyass
        [⟨".a\x7bdisplay:inline\x7d".data, ['8', '0'],
          some "19<span class=\"a\">2</span>.1".data⟩])) = true :=
  ⟨by decide,
    C3_amended.2.1
      [⟨".a\x7bdisplay:inline\x7d".data, ['8', '0'],
        some "19<span class=\"a\">2</span>.1".data⟩]
      (by decide)⟩

end ProxyFetch
